import Mathlib

/-!
Verification of the core storage engine of an APFS driver: checksum module,
checkpoint-mapping bookkeeping, object resolver with copy-on-write, and the
b-tree query/insert/remove/replace engine.  All definitions are shallow
embeddings of the C sources; functions from collaborator modules that are not
part of the sources (node engine primitives, allocator, transaction manager)
are modelled from the specification and marked as such in their doc comments.
-/

/-! ### Error codes

Negative errno values returned by the C code, as an inductive type. -/

inductive Errno where
  | ENOMEM
  | ENODATA
  | EFSCORRUPTED
  | EFSBADCRC
  | EIO
  | EOPNOTSUPP
  | ENOSPC
  | EAGAIN
  deriving DecidableEq, Repr

/-! ### Little-endian byte strings

Blocks are byte lists; multi-byte header fields are little-endian. -/

/-- Decode a little-endian byte list into a natural number. -/
def fromLeBytes : List Nat → Nat
  | [] => 0
  | b :: bs => b % 256 + 256 * fromLeBytes bs

/-- Encode the low `n` bytes of a natural number, little-endian. -/
def toLeBytes : Nat → Nat → List Nat
  | 0, _ => []
  | n + 1, v => v % 256 :: toLeBytes n (v / 256)

/-- Read a 64-bit little-endian field at byte offset `off`. -/
def readLe64 (blk : List Nat) (off : Nat) : Nat :=
  fromLeBytes ((blk.drop off).take 8)

/-- Read a 32-bit little-endian field at byte offset `off`. -/
def readLe32 (blk : List Nat) (off : Nat) : Nat :=
  fromLeBytes ((blk.drop off).take 4)

/-- Overwrite the 8 bytes at offset `off` with the little-endian encoding
of `v`. -/
def writeLe64 (blk : List Nat) (off : Nat) (v : Nat) : List Nat :=
  blk.take off ++ toLeBytes 8 v ++ blk.drop (off + 8)

/-! ### Checksum module: `apfs_fletcher64`

`apfs_fletcher64` runs two u64 accumulators over the 32-bit little-endian
words of the input (bytes past the 8-byte header checksum field), reduces
them modulo `0xFFFFFFFF`, and packs the two 32-bit complements into a
64-bit value.  The u64 wrap-around of the C accumulators is kept explicit
as `% U64`. -/

/-- 2^64, the modulus of the C `u64` accumulators. -/
def U64 : Nat := 18446744073709551616

/-- 0xFFFFFFFF, the fletcher modulus used by `do_div`. -/
def FLMOD : Nat := 4294967295

/-- Group a byte string into 32-bit little-endian words, ignoring a trailing
fragment shorter than 4 bytes (the C loop runs `i < len / sizeof(u32)`). -/
def leWords : List Nat → List Nat
  | b0 :: b1 :: b2 :: b3 :: rest =>
      (b0 % 256 + 256 * (b1 % 256) + 65536 * (b2 % 256) + 16777216 * (b3 % 256))
        :: leWords rest
  | _ => []

/-- The accumulator loop: `sum1 += word; sum2 += sum1`, with u64 wrap-around. -/
def fletcherLoop : List Nat → Nat × Nat → Nat × Nat
  | [], s => s
  | w :: ws, (s1, s2) =>
      let s1' := (s1 + w) % U64
      fletcherLoop ws (s1', (s2 + s1') % U64)

/-- Shallow embedding of `apfs_fletcher64` on the byte string that the C code
is pointed at (`addr`, `len` = its length). -/
def apfs_fletcher64 (bytes : List Nat) : Nat :=
  let s := fletcherLoop (leWords bytes) (0, 0)
  let c1 := FLMOD - (s.1 + s.2) % U64 % FLMOD
  let c2 := FLMOD - (s.1 + c1) % U64 % FLMOD
  c2 * 4294967296 + c1

/-- The header checksum field size, `APFS_MAX_CKSUM_SIZE` (8 bytes). -/
def APFS_MAX_CKSUM_SIZE : Nat := 8

/-- Shallow embedding of `apfs_obj_verify_csum`: compare the stored 64-bit
checksum against the value recomputed over the rest of the block. -/
def apfs_obj_verify_csum (blk : List Nat) : Bool :=
  readLe64 blk 0 == apfs_fletcher64 (blk.drop APFS_MAX_CKSUM_SIZE)

/-- Shallow embedding of `apfs_obj_set_csum`: write the recomputed checksum
into the header checksum field. -/
def apfs_obj_set_csum (blk : List Nat) : List Nat :=
  writeLe64 blk 0 (apfs_fletcher64 (blk.drop APFS_MAX_CKSUM_SIZE))

/-! ### Fletcher detection of single-byte corruption (claim C6 machinery)

The two running sums are characterised in closed form: for word list `ws`,
`sum1 = Σ wᵢ` and `sum1 + sum2 = Σ (n - i + 1)·wᵢ`; block sizes ≤ 64 KiB
keep both below 2^64, so the u64 wrap-around never triggers. -/

/-- `weighted ws = Σᵢ (ws.length - i) * wsᵢ`, the closed form of `sum2`. -/
def weighted : List Nat → Nat
  | [] => 0
  | w :: ws => (ws.length + 1) * w + weighted ws

/-! ### Checkpoint-mapping blocks

`apfs_create_cpoint_map` / `apfs_remove_cpoint_map` and the circular
data-area index arithmetic they rely on.  The superblock fields they read
are gathered in `CpmSB`; the mapping block is a count plus the raw entry
array (entries past the count are garbage slots, kept in the model). -/

/-- The checkpoint data-area fields of the container superblock. -/
structure CpmSB where
  data_base : Nat
  data_index : Nat
  data_blks : Nat
  deriving DecidableEq, Repr

/-- Wrap to u64, the width of block-number arithmetic in the C code. -/
def w64 (x : Nat) : Nat := x % 18446744073709551616

/-- u64 subtraction with wrap-around. -/
def u64sub (a b : Nat) : Nat :=
  (w64 a + (18446744073709551616 - w64 b)) % 18446744073709551616

/-- u64 addition with wrap-around. -/
def u64add (a b : Nat) : Nat := (a + b) % 18446744073709551616

/-- Shallow embedding of `apfs_index_in_data_area`:
`(bno - data_base + data_blks - data_index) % data_blks` in u64 arithmetic. -/
def apfs_index_in_data_area (p : CpmSB) (bno : Nat) : Nat :=
  (u64sub (u64add (u64sub bno p.data_base) p.data_blks) p.data_index) % p.data_blks

/-- Shallow embedding of `apfs_data_index_to_bno`:
`data_base + (index + data_index) % data_blks` in u64 arithmetic. -/
def apfs_data_index_to_bno (p : CpmSB) (index : Nat) : Nat :=
  u64add p.data_base ((index + p.data_index) % p.data_blks)

/-- One `apfs_checkpoint_mapping` entry. -/
structure CpmEntry where
  cpm_type : Nat
  cpm_subtype : Nat
  cpm_size : Nat
  cpm_pad : Nat
  cpm_fs_oid : Nat
  cpm_oid : Nat
  cpm_paddr : Nat
  deriving DecidableEq, Repr

/-- A checkpoint-mapping block: the count plus the raw entry array. -/
structure Cpm where
  cpm_count : Nat
  cpm_map : List CpmEntry
  deriving DecidableEq, Repr

/-- Storage-class bit for ephemeral objects (`APFS_OBJ_EPHEMERAL`). -/
def APFS_OBJ_EPHEMERAL : Nat := 2147483648

/-- `APFS_OBJECT_TYPE_BTREE_NODE` (on-disk format constant, from the
driver's header which is not part of the sources). -/
def APFS_OBJECT_TYPE_BTREE_NODE : Nat := 3

/-- `APFS_OBJECT_TYPE_SPACEMAN_FREE_QUEUE` (on-disk format constant). -/
def APFS_OBJECT_TYPE_SPACEMAN_FREE_QUEUE : Nat := 9

/-- Shallow embedding of `apfs_create_cpoint_map`.  `maxMaps` stands for
`apfs_max_maps_per_block(sb)` and `blocksize` for `sb->s_blocksize`. -/
def apfs_create_cpoint_map (maxMaps : Nat) (cpm : Cpm) (oid bno blocksize : Nat) :
    Cpm × Option Errno :=
  if cpm.cpm_count ≥ maxMaps then (cpm, some .EOPNOTSUPP)
  else
    ({ cpm_count := cpm.cpm_count + 1,
       cpm_map := cpm.cpm_map.set cpm.cpm_count
         { cpm_type := APFS_OBJ_EPHEMERAL + APFS_OBJECT_TYPE_BTREE_NODE,
           cpm_subtype := APFS_OBJECT_TYPE_SPACEMAN_FREE_QUEUE,
           cpm_size := blocksize,
           cpm_pad := 0,
           cpm_fs_oid := 0,
           cpm_oid := oid,
           cpm_paddr := bno } }, none)

/-- Index of the last entry satisfying `f`, mirroring the C loop that keeps
overwriting `bno_map` on every match. -/
def lastIdxWhere (f : CpmEntry → Bool) : List CpmEntry → Option Nat
  | [] => none
  | e :: es =>
      match lastIdxWhere f es with
      | some j => some (j + 1)
      | none => if f e then some 0 else none

/-- The per-entry renumbering step of `apfs_remove_cpoint_map`: an entry whose
circular offset exceeds that of the removed block has its address moved one
slot back. -/
def renumberEntry (p : CpmSB) (bno_off : Nat) (e : CpmEntry) : CpmEntry :=
  let curr_off := apfs_index_in_data_area p e.cpm_paddr
  if bno_off < curr_off then
    { e with cpm_paddr := apfs_data_index_to_bno p (curr_off - 1) }
  else e

/-- The `memmove` in `apfs_remove_cpoint_map`: entries `i+1 .. n-1` shift one
slot down; the slot at `n-1` keeps its old (now dead) value. -/
def cpmShiftDelete (maps : List CpmEntry) (i n : Nat) : List CpmEntry :=
  maps.take i ++ (maps.drop (i + 1)).take (n - 1 - i) ++ maps.drop (n - 1)

/-- Shallow embedding of `apfs_remove_cpoint_map`.  Note that the C code
renumbers the surviving entries in the same loop that searches for the entry
to delete, so on the corruption path (no entry matches `bno`) the addresses
have already been renumbered, but the count is untouched. -/
def apfs_remove_cpoint_map (p : CpmSB) (maxMaps : Nat) (cpm : Cpm) (bno : Nat) :
    Cpm × Option Errno :=
  if cpm.cpm_count > maxMaps then (cpm, some .EFSCORRUPTED)
  else
    let bno_off := apfs_index_in_data_area p bno
    let live := cpm.cpm_map.take cpm.cpm_count
    let maps' := live.map (renumberEntry p bno_off) ++ cpm.cpm_map.drop cpm.cpm_count
    match lastIdxWhere (fun e => e.cpm_paddr == bno) live with
    | none => ({ cpm with cpm_map := maps' }, some .EFSCORRUPTED)
    | some i =>
        ({ cpm_count := cpm.cpm_count - 1,
           cpm_map := cpmShiftDelete maps' i cpm.cpm_count }, none)

/-! ### B-tree nodes and the query/traversal engine

Nodes are kept in parsed form: level (0 = leaf), root flag, owning xid,
the ordered record list (key, value bytes) and the root-only tree-info
footer.  A query is a root-to-leaf chain of frames (deepest frame first),
each holding the node's block number, the node, and the position index
(`-1` is the before-first position).  The node-local search
(`apfs_node_query`) and the node reader are not part of the sources and are
modelled from the specification. -/

/-- The tree type recorded in the query flags (`APFS_QUERY_OMAP` /
`APFS_QUERY_CAT`). -/
inductive TreeKind where
  | omap
  | cat
  deriving DecidableEq, Repr

/-- A parsed b-tree node. -/
structure ANode where
  btn_level : Nat
  btn_root : Bool
  o_xid : Nat
  recs : List (Nat × List Nat)
  bt_key_count : Nat
  bt_node_count : Nat
  bt_longest_key : Nat
  bt_longest_val : Nat
  deriving DecidableEq, Repr

/-- `apfs_node_is_leaf`: level 0 means leaf. -/
def ANode.isLeaf (n : ANode) : Bool := n.btn_level == 0

/-- The parsed node blocks of the container, by block number. -/
def NodeDisk : Type := Nat → Option ANode

/-- One query frame: block number, node, and position index
(`query->node`, `query->index`). -/
structure Frame where
  bno : Nat
  node : ANode
  index : Int
  deriving DecidableEq, Repr

/-- A query chain, deepest frame first; the last frame is the root, so the
depth of the current frame is `length - 1`. -/
def chainDepth (q : List Frame) : Nat := q.length - 1

/-- Encode an object-map key `(oid, xid)` into a single natural number,
preserving the lexicographic order used by the omap key comparison. -/
def omapKey (oid xid : Nat) : Nat := oid * 18446744073709551616 + xid

/-- The oid component of an encoded object-map key. -/
def keyOid (k : Nat) : Nat := k / 18446744073709551616

/-- Modelled from the spec: the per-tree key codec's match test for an
exact-match query.  For the object map the match is on the oid with the
record's xid at most the sought xid (guaranteed by the ordered search);
for the catalog it is full key equality. -/
def keyMatch (tk : TreeKind) (rkey qkey : Nat) : Bool :=
  match tk with
  | .omap => keyOid rkey == keyOid qkey
  | .cat => rkey == qkey

/-- Modelled from the spec: the position search inside one node
(`apfs_node_search` inside `apfs_node_query`, not part of the sources):
the index of the last record whose key is at most the sought key, none if
the key precedes every record. -/
def findLe (key : Nat) : List (Nat × List Nat) → Option Nat
  | [] => none
  | r :: rs =>
      if r.1 ≤ key then
        match findLe key rs with
        | some j => some (j + 1)
        | none => some 0
      else none

/-- Result of the node-local search: an exact/routing position, or
not-found with the position just before where the key would belong
(`-1` when the key precedes the whole node). -/
inductive NQRes where
  | found (i : Nat)
  | enodata (i : Int)
  deriving DecidableEq, Repr

/-- Modelled from the spec: `apfs_node_query` for a fresh exact-match
query.  On a leaf the record found must match the sought key, otherwise
the result is not-found at the insertion position; on an index node the
last record with key at most the sought key routes the descent. -/
def apfs_node_query (tk : TreeKind) (key : Nat) (n : ANode) : NQRes :=
  match findLe key n.recs with
  | none => .enodata (-1)
  | some i =>
      if n.isLeaf then
        if keyMatch tk (n.recs.getD i (0, [])).1 key then .found i
        else .enodata (Int.ofNat i)
      else .found i

/-- The value bytes of record `i` of a node. -/
def valueAt (n : ANode) (i : Nat) : List Nat := (n.recs.getD i (0, [])).2

/-- Shallow embedding of `apfs_child_from_query`: the value of a nonleaf
record must be exactly 8 bytes (the little-endian child id); anything else
is corruption and no child id is produced. -/
def apfs_child_from_query (val : List Nat) : Except Errno Nat :=
  if val.length ≠ 8 then .error .EFSCORRUPTED
  else .ok (fromLeBytes val)

/-- Shallow embedding of `apfs_query_set_before_first`: descend along the
first record of every index node, setting ancestors to index 0 and the
leaf to index -1; depth 12 is corruption. -/
def apfs_query_set_before_first (disk : NodeDisk) :
    List Frame → List Frame × Option Errno
  | [] => ([], some .EFSCORRUPTED)
  | f :: rest =>
      if h : 12 ≤ chainDepth (f :: rest) then (f :: rest, some .EFSCORRUPTED)
      else if f.node.isLeaf then ({ f with index := -1 } :: rest, none)
      else
        let f' := { f with index := 0 }
        match apfs_child_from_query (valueAt f'.node 0) with
        | .error e => (f' :: rest, some e)
        | .ok cid =>
            match disk cid with
            | none => (f' :: rest, some Errno.EIO)
            | some child =>
                apfs_query_set_before_first disk
                  ({ bno := cid, node := child,
                     index := Int.ofNat child.recs.length } :: f' :: rest)
  termination_by q => 13 - q.length
  decreasing_by
    simp only [chainDepth, List.length_cons] at h ⊢
    omega

/-- Shallow embedding of `apfs_btree_query`.  The `goto next_node` loop is
the recursion; the depth-12 guard comes first; a not-found at the root
frame at position -1 takes the before-first path and still reports
`ENODATA`.  The C code's `-EAGAIN` branch (a search resumed at a stale
position backs up one level) is unreachable here because the modelled
`apfs_node_query` of a fresh exact-match query never reports `EAGAIN`. -/
def apfs_btree_query (disk : NodeDisk) (tk : TreeKind) (key : Nat) :
    List Frame → List Frame × Option Errno
  | [] => ([], some .EFSCORRUPTED)
  | f :: rest =>
      if h : 12 ≤ chainDepth (f :: rest) then (f :: rest, some .EFSCORRUPTED)
      else
        match apfs_node_query tk key f.node with
        | .enodata i =>
            if rest.isEmpty && i == -1 then
              match apfs_query_set_before_first disk ({ f with index := i } :: rest) with
              | (q', none) => (q', some .ENODATA)
              | (q', some e) => (q', some e)
            else ({ f with index := i } :: rest, some .ENODATA)
        | .found i =>
            let f' := { f with index := Int.ofNat i }
            if f'.node.isLeaf then (f' :: rest, none)
            else
              match apfs_child_from_query (valueAt f'.node i) with
              | .error e => (f' :: rest, some e)
              | .ok cid =>
                  match disk cid with
                  | none => (f' :: rest, some Errno.EIO)
                  | some child =>
                      apfs_btree_query disk tk key
                        ({ bno := cid, node := child,
                           index := Int.ofNat child.recs.length } :: f' :: rest)
  termination_by q => 13 - q.length
  decreasing_by
    simp only [chainDepth, List.length_cons] at h ⊢
    omega

/-- The root frame a caller builds with `apfs_alloc_query(root, NULL)`:
the search starts past the last record. -/
def rootFrame (bno : Nat) (n : ANode) : Frame :=
  { bno := bno, node := n, index := Int.ofNat n.recs.length }

/-- A crafted one-block filesystem whose root index node routes back to
itself: record key 5, value = little-endian child id 0 (the node's own
block). -/
def cyclicNode : ANode :=
  { btn_level := 1, btn_root := true, o_xid := 1,
    recs := [(5, [0, 0, 0, 0, 0, 0, 0, 0])],
    bt_key_count := 1, bt_node_count := 1,
    bt_longest_key := 8, bt_longest_val := 8 }

/-- The disk holding only the self-referential node at block 0. -/
def cyclicDisk : NodeDisk := fun b => if b = 0 then some cyclicNode else none

/-- A two-level tree for the before-first witness: root index node at block
0 routing (key 5) to the leaf at block 1. -/
def bfLeaf : ANode :=
  { btn_level := 0, btn_root := false, o_xid := 1, recs := [(5, [1, 2, 3, 4])],
    bt_key_count := 0, bt_node_count := 0, bt_longest_key := 0, bt_longest_val := 0 }

/-- Root of the before-first witness tree. -/
def bfRoot : ANode :=
  { btn_level := 1, btn_root := true, o_xid := 1,
    recs := [(5, [1, 0, 0, 0, 0, 0, 0, 0])],
    bt_key_count := 1, bt_node_count := 2, bt_longest_key := 8, bt_longest_val := 8 }

/-- Disk for the before-first witness. -/
def bfDisk : NodeDisk := fun b =>
  if b = 0 then some bfRoot else if b = 1 then some bfLeaf else none

/-- A root whose only record carries a 3-byte value where a child id is
expected. -/
def badChildRoot : ANode :=
  { btn_level := 1, btn_root := true, o_xid := 1, recs := [(0, [1, 2, 3])],
    bt_key_count := 1, bt_node_count := 1, bt_longest_key := 8, bt_longest_val := 8 }

/-! ### Object blocks and the object resolver

Raw blocks are byte lists with the object header at the front: checksum
(bytes 0-8), object id (8-16), transaction id (16-24), type (24-28),
subtype (28-32).  The container state gathers the raw disk, the current
transaction id, the `APFS_CHECK_NODES` flag, and the collaborator state of
the allocator, free queue and transaction. -/

/-- Storage-class bit for physical objects (`APFS_OBJ_PHYSICAL`,
bit 30 of the object type). -/
def APFS_OBJ_PHYSICAL : Nat := 1073741824

/-- Container state seen by `apfs_read_object_block`. -/
structure FS where
  disk : Nat → Option (List Nat)
  xid : Nat
  checkNodes : Bool
  freeBlocks : List Nat
  fq : List (Nat × Nat)
  trans : List Nat
  csumFlagged : List Nat

/-- Modelled from the spec: `apfs_spaceman_allocate_block` with the
backwards hint hands out the free block closest to the end of the space
(the last of the free list); an empty free list is out-of-space. -/
def apfs_spaceman_allocate_block (freeBlocks : List Nat) :
    Option (Nat × List Nat) :=
  match freeBlocks.getLast? with
  | none => none
  | some b => some (b, freeBlocks.dropLast)

/-- Modelled from the spec: `apfs_free_queue_insert` enqueues a block range
on the free queue for deferred reuse. -/
def apfs_free_queue_insert (fq : List (Nat × Nat)) (bno cnt : Nat) :
    List (Nat × Nat) :=
  fq ++ [(bno, cnt)]

/-- Modelled from the spec: `apfs_transaction_join` idempotently marks a
block dirty under the current transaction. -/
def apfs_transaction_join (trans : List Nat) (bno : Nat) : List Nat :=
  if bno ∈ trans then trans else bno :: trans

/-- Point update of the raw disk. -/
def diskWrite (d : Nat → Option (List Nat)) (bno : Nat) (blk : List Nat) :
    Nat → Option (List Nat) :=
  fun b => if b = bno then some blk else d b

/-- Shallow embedding of `apfs_read_object_block`: read and (optionally)
checksum-verify the block; a write request on a block whose header xid is
not the current transaction's triggers copy-on-write: allocate backwards,
copy the bytes, enqueue the old block on the free queue, stamp the new
block's oid (for physical objects) and xid, join it to the transaction and
flag it for checksumming. -/
def apfs_read_object_block (fs : FS) (bno : Nat) (write : Bool) :
    Except Errno (Nat × FS) :=
  match fs.disk bno with
  | none => .error Errno.EIO
  | some blk =>
      let otype := readLe32 blk 24
      if fs.checkNodes && !(apfs_obj_verify_csum blk) then .error .EFSBADCRC
      else if !write then .ok (bno, fs)
      else if readLe64 blk 16 == fs.xid then .ok (bno, fs)
      else
        match apfs_spaceman_allocate_block fs.freeBlocks with
        | none => .error .ENOSPC
        | some (new_bno, fb') =>
            match fs.disk new_bno with
            | none => .error Errno.EIO
            | some _ =>
                let blk1 := if otype.testBit 30 then writeLe64 blk 8 new_bno
                  else blk
                let blk2 := writeLe64 blk1 16 fs.xid
                .ok (new_bno,
                  { fs with
                    disk := diskWrite fs.disk new_bno blk2,
                    freeBlocks := fb',
                    fq := apfs_free_queue_insert fs.fq bno 1,
                    trans := apfs_transaction_join fs.trans new_bno,
                    csumFlagged := new_bno :: fs.csumFlagged })

/-! ### Node-world mutation: join, replace, remove

The composite state pairs the raw-block world with the parsed node world
(node blocks are kept parsed).  The node engine primitives
(`apfs_node_replace`, `apfs_node_locate_key`, `apfs_read_node` with write
access, `apfs_delete_node`) are not part of the sources and are modelled
from the specification; the traversal-level control flow follows the C
sources.  Only the physically-addressed object-map tree is mutated by any
claim, so the catalog (virtual-storage) resolution inside a join and the
catalog-only query refresh are left out of the model and answer with an
explicit error. -/

/-- Composite state: raw blocks, parsed node blocks, and the omap/catalog
root block numbers held by the in-memory superblock. -/
structure AFS where
  fs : FS
  ndisk : NodeDisk
  omapRootBno : Nat

/-- Point update of the parsed node world. -/
def ndiskWrite (nd : NodeDisk) (bno : Nat) (n : ANode) : NodeDisk :=
  fun b => if b = bno then some n else nd b

/-- Modelled from the spec: `apfs_read_node` with write access for a
physically-addressed node (`apfs_read_node` is not part of the sources).
A node whose header xid is already the transaction's is returned as-is;
otherwise it is relocated copy-on-write: allocate backwards, move the
parsed node, enqueue the old block, stamp the new xid, join and flag. -/
def readNodeWrite (st : AFS) (bno : Nat) : Except Errno (Nat × AFS) :=
  match st.ndisk bno with
  | none => .error Errno.EIO
  | some nd =>
      if nd.o_xid == st.fs.xid then .ok (bno, st)
      else
        match apfs_spaceman_allocate_block st.fs.freeBlocks with
        | none => .error .ENOSPC
        | some (nb, fb') =>
            .ok (nb,
              { st with
                ndisk := ndiskWrite st.ndisk nb { nd with o_xid := st.fs.xid },
                fs := { st.fs with
                  freeBlocks := fb',
                  fq := apfs_free_queue_insert st.fs.fq bno 1,
                  trans := apfs_transaction_join st.fs.trans nb,
                  csumFlagged := nb :: st.fs.csumFlagged } })

/-- Modelled from the spec: `apfs_node_replace` overwrites the record at
the query position with the new key and/or value.  With the record count
unchanged the capacity model always has room, so the no-space retry loop
of the C caller is unreachable here. -/
def apfs_node_replace (n : ANode) (i : Nat) (key : Option Nat)
    (val : Option (List Nat)) : ANode :=
  let old := n.recs.getD i (0, [])
  { n with recs := n.recs.set i (key.getD old.1, val.getD old.2) }

/-- Shallow embedding of `apfs_query_is_orphan`: no frame of the chain
reaches a root node. -/
def apfs_query_is_orphan (q : List Frame) : Bool :=
  !(q.any (fun f => f.node.btn_root))

/-- Shallow embedding of `apfs_btree_change_rec_count`: walk to the root
frame and update the tree-info footer (longest key/value, key count). -/
def apfs_btree_change_rec_count (st : AFS) (chain : List Frame) (change : Int)
    (key_len val_len : Nat) : AFS :=
  match chain.getLast? with
  | none => st
  | some rootf =>
      match st.ndisk rootf.bno with
      | none => st
      | some rootn =>
          let lk := if rootn.bt_longest_key < key_len then key_len
            else rootn.bt_longest_key
          let lv := if rootn.bt_longest_val < val_len then val_len
            else rootn.bt_longest_val
          let kc := (Int.ofNat rootn.bt_key_count + change).toNat
          let rootn' := { rootn with
            bt_longest_key := lk,
            bt_longest_val := lv,
            bt_key_count := kc }
          { st with ndisk := ndiskWrite st.ndisk rootf.bno rootn' }

/-- Shallow embedding of `apfs_btree_change_node_count`: walk to the root
frame and update the node count of the tree-info footer. -/
def apfs_btree_change_node_count (st : AFS) (chain : List Frame)
    (change : Int) : AFS :=
  match chain.getLast? with
  | none => st
  | some rootf =>
      match st.ndisk rootf.bno with
      | none => st
      | some rootn =>
          let rootn' := { rootn with
            bt_node_count := (Int.ofNat rootn.bt_node_count + change).toNat }
          { st with ndisk := ndiskWrite st.ndisk rootf.bno rootn' }

mutual

/-- Shallow embedding of `apfs_query_join_transaction` for the
physically-addressed object-map tree: a buffer already in the transaction
is a no-op; otherwise the node is re-read with write access (triggering
copy-on-write through the allocator) and, since the storage is physical,
a query with a parent updates the parent record with the new location.
The state and the updated current frame are returned; catalog
(virtual-storage) joins resolve through the object map and are outside
the model's scope, answering with an explicit error. -/
def apfs_query_join_transaction (st : AFS) (tk : TreeKind) :
    List Frame → Except Errno (AFS × Frame)
  | [] => .error .EFSCORRUPTED
  | f :: rest =>
      if f.bno ∈ st.fs.trans then .ok (st, f)
      else
        match tk with
        | .cat => .error .EOPNOTSUPP
        | .omap =>
            match readNodeWrite st f.bno with
            | .error e => .error e
            | .ok (nb, st') =>
                match st'.ndisk nb with
                | none => .error Errno.EIO
                | some node' =>
                    let f' : Frame := { bno := nb, node := node', index := f.index }
                    if rest.isEmpty then .ok (st', f')
                    else
                      match apfs_btree_replace st' tk rest none 0
                          (some (toLeBytes 8 nb)) 8 with
                      | .error e => .error e
                      | .ok (st'', _) => .ok (st'', f')
  termination_by q => 2 * q.length

/-- Shallow embedding of `apfs_btree_replace`: leaf bookkeeping first, then
join the block to the transaction, propagate a changed key of record 0 to
the parent, and overwrite the record in place.  An orphaned chain would be
refreshed by `apfs_query_refresh`, which only supports catalog queries
(anything else is corruption, as in the C code); the catalog re-descent
itself is outside the model's scope.  With record counts unchanged the
node-local replace always has room in this capacity model, so the C code's
split-and-retry path is unreachable. -/
def apfs_btree_replace (st : AFS) (tk : TreeKind) :
    List Frame → Option Nat → Nat → Option (List Nat) → Nat →
    Except Errno (AFS × Frame)
  | [], _, _, _, _ => .error .EFSCORRUPTED
  | f :: rest, key, key_len, val, val_len =>
      if f.node.isLeaf && apfs_query_is_orphan (f :: rest) then
        .error (if tk == .cat then .EOPNOTSUPP else .EFSCORRUPTED)
      else
        let st1 := if f.node.isLeaf then
            apfs_btree_change_rec_count st (f :: rest) 0 key_len val_len
          else st
        match apfs_query_join_transaction st1 tk (f :: rest) with
        | .error e => .error e
        | .ok (st2, g) =>
            match (if key.isSome && (!rest.isEmpty) && g.index == 0 then
                (apfs_btree_replace st2 tk rest key key_len none 0).map (·.1)
              else .ok st2) with
            | .error e => .error e
            | .ok st3 =>
                match st3.ndisk g.bno with
                | none => .error Errno.EIO
                | some nd =>
                    let nd' := apfs_node_replace nd g.index.toNat key val
                    .ok ({ st3 with ndisk := ndiskWrite st3.ndisk g.bno nd' },
                      { bno := g.bno, node := nd', index := g.index })
  termination_by q _ _ _ _ => 2 * q.length + 1

/-- Shallow embedding of `apfs_btree_remove`: tree-info bookkeeping first,
join the block, delete the whole node if its only record goes away (or
collapse the root to an empty leaf), re-propagate the new first key when
record 0 is removed, then drop the record and step the query index back.
The key length passed on to the parent replace is irrelevant there
(the parent is never a leaf), so it is given as 0. -/
def apfs_btree_remove (st : AFS) (tk : TreeKind) :
    List Frame → Except Errno (AFS × Frame)
  | [] => .error .EFSCORRUPTED
  | f :: rest =>
      let st1 := if f.node.isLeaf then
          apfs_btree_change_rec_count st (f :: rest) (-1) 0 0
        else apfs_btree_change_node_count st (f :: rest) (-1)
      match apfs_query_join_transaction st1 tk (f :: rest) with
      | .error e => .error e
      | .ok (st2, g) =>
          match st2.ndisk g.bno with
          | none => .error Errno.EIO
          | some nd =>
              if nd.recs.length == 1 && !rest.isEmpty then
                apfs_delete_node st2 tk g rest
              else
                let ndl := if nd.recs.length == 1 then
                    { nd with btn_level := 0 } else nd
                match (if (!rest.isEmpty) && g.index == 0 then
                    if ndl.recs.length < 2 then .error Errno.EFSCORRUPTED
                    else (apfs_btree_replace st2 tk rest
                        (some (ndl.recs.getD 1 (0, [])).1) 0 none 0).map (·.1)
                  else .ok st2) with
                | .error e => .error e
                | .ok st3 =>
                    let nd' := { ndl with recs := ndl.recs.eraseIdx g.index.toNat }
                    .ok ({ st3 with ndisk := ndiskWrite st3.ndisk g.bno nd' },
                      { bno := g.bno, node := nd', index := g.index - 1 })
  termination_by q => 2 * q.length + 2

/-- Modelled from the spec: `apfs_delete_node` removes a node that lost its
last record: its block goes to the free queue and the routing record in the
parent is removed (which also adjusts the node-count bookkeeping). -/
def apfs_delete_node (st : AFS) (tk : TreeKind) (g : Frame) :
    List Frame → Except Errno (AFS × Frame)
  | rest =>
      let st1 := { st with fs := { st.fs with
        fq := apfs_free_queue_insert st.fs.fq g.bno 1 } }
      match apfs_btree_remove st1 tk rest with
      | .error e => .error e
      | .ok (st2, _) => .ok (st2, g)
  termination_by q => 2 * q.length + 3

end

/-- The 16-byte on-disk omap value: flags (4 bytes), size (4), paddr (8). -/
def omapValBytes (flags size paddr : Nat) : List Nat :=
  toLeBytes 4 flags ++ toLeBytes 4 size ++ toLeBytes 8 paddr

/-- Modelled from the spec: `apfs_bno_from_query` reads the physical
address out of the omap record value found by the query; a malformed value
size means a bad object map leaf (corruption). -/
def apfs_bno_from_query : List Frame → Except Errno Nat
  | [] => .error .EFSCORRUPTED
  | f :: _ =>
      let val := valueAt f.node f.index.toNat
      if val.length ≠ 16 then .error .EFSCORRUPTED
      else .ok (readLe64 val 8)

/-- Shallow embedding of `apfs_omap_lookup_block`: run an object-map query
for `(id, current xid)`; any query failure, including not-found
(`ENODATA`), is propagated to the caller unchanged.  On a write request
the object block is read with write access (relocating it copy-on-write
when needed) and the object-map record is replaced with the new
location. -/
def apfs_omap_lookup_block (st : AFS) (blocksize : Nat) (id : Nat)
    (write : Bool) : Except Errno (Nat × AFS) :=
  match st.ndisk st.omapRootBno with
  | none => .error Errno.EIO
  | some root =>
      match apfs_btree_query st.ndisk .omap (omapKey id st.fs.xid)
          [rootFrame st.omapRootBno root] with
      | (_, some e) => .error e
      | (q', none) =>
          match apfs_bno_from_query q' with
          | .error e => .error e
          | .ok block =>
              if write then
                match apfs_read_object_block st.fs block true with
                | .error e => .error e
                | .ok (newb, fs') =>
                    let st' : AFS := { st with fs := fs' }
                    match apfs_btree_replace st' .omap q'
                        (some (omapKey id st.fs.xid)) 16
                        (some (omapValBytes 0 blocksize newb)) 16 with
                    | .error e => .error e
                    | .ok (st'', _) => .ok (newb, st'')
              else .ok (block, st)

/-- Shallow embedding of `apfs_delete_omap_rec`: a not-found from the
object-map query is converted to `EFSCORRUPTED` (the mapping is mandatory
for a live object); on success the record is removed. -/
def apfs_delete_omap_rec (st : AFS) (oid : Nat) : Except Errno AFS :=
  match st.ndisk st.omapRootBno with
  | none => .error Errno.EIO
  | some root =>
      match apfs_btree_query st.ndisk .omap (omapKey oid st.fs.xid)
          [rootFrame st.omapRootBno root] with
      | (_, some .ENODATA) => .error .EFSCORRUPTED
      | (_, some e) => .error e
      | (q', none) =>
          match apfs_btree_remove st .omap q' with
          | .error e => .error e
          | .ok (st', _) => .ok st'

/-- An object-map root leaf holding only a mapping for oid 5: looking up
oid 3 finds nothing. -/
def omapMissRoot : ANode :=
  { btn_level := 0, btn_root := true, o_xid := 2,
    recs := [(omapKey 5 1, omapValBytes 0 4096 50)],
    bt_key_count := 1, bt_node_count := 1,
    bt_longest_key := 16, bt_longest_val := 16 }

/-- State whose object map lacks a mapping for oid 3. -/
def omapMissSt : AFS :=
  { fs := { disk := fun _ => none, xid := 2, checkNodes := false,
            freeBlocks := [], fq := [], trans := [10], csumFlagged := [] },
    ndisk := fun b => if b = 10 then some omapMissRoot else none,
    omapRootBno := 10 }

/-- A virtual object block (stored at block 50) owned by transaction 1:
zero checksum, oid 7, xid 1, virtual type (no storage-class bits). -/
def cowBlk : List Nat :=
  [0, 0, 0, 0, 0, 0, 0, 0,
   7, 0, 0, 0, 0, 0, 0, 0,
   1, 0, 0, 0, 0, 0, 0, 0,
   0, 0, 0, 0, 0, 0, 0, 0]

/-- The object-map root leaf of the copy-on-write scenario: maps oid 7
(written at xid 1) to block 50; the node block (10) is already joined to
the transaction. -/
def cowRoot : ANode :=
  { btn_level := 0, btn_root := true, o_xid := 2,
    recs := [(omapKey 7 1, omapValBytes 0 4096 50)],
    bt_key_count := 1, bt_node_count := 1,
    bt_longest_key := 16, bt_longest_val := 16 }

/-- Copy-on-write scenario: current transaction xid 2, virtual object at
block 50 with header xid 1, free blocks 90 and 91. -/
def cowSt : AFS :=
  { fs := { disk := fun b => if b = 50 then some cowBlk
                else if b = 91 then some (List.replicate 32 0) else none,
            xid := 2, checkNodes := false, freeBlocks := [90, 91],
            fq := [], trans := [10], csumFlagged := [] },
    ndisk := fun b => if b = 10 then some cowRoot else none,
    omapRootBno := 10 }

/-- The object-map root after the write lookup: oid 7 now maps (at xid 2)
to the relocated block 91. -/
def cowRootAfter : ANode :=
  { btn_level := 0, btn_root := true, o_xid := 2,
    recs := [(omapKey 7 2, omapValBytes 0 4096 91)],
    bt_key_count := 1, bt_node_count := 1,
    bt_longest_key := 16, bt_longest_val := 16 }

/-- The state after the first write lookup of the scenario. -/
def cowStA : AFS :=
  { fs := { disk := diskWrite cowSt.fs.disk 91 (writeLe64 cowBlk 16 2),
            xid := 2, checkNodes := false, freeBlocks := [90],
            fq := [(50, 1)], trans := [91, 10], csumFlagged := [91] },
    ndisk := ndiskWrite (ndiskWrite cowSt.ndisk 10 cowRoot) 10 cowRootAfter,
    omapRootBno := 10 }

/-- The state after the second (idempotent) write lookup. -/
def cowStB : AFS :=
  { fs := cowStA.fs,
    ndisk := ndiskWrite (ndiskWrite cowStA.ndisk 10 cowRootAfter) 10 cowRootAfter,
    omapRootBno := 10 }

/-- The container state produced by a copy-on-write relocation of `blk`
from `bno` to `nb`. -/
def cowResultFs (fs : FS) (bno nb : Nat) (fb' : List Nat) (blk : List Nat) :
    FS :=
  { fs with
    disk := diskWrite fs.disk nb
      (writeLe64 (if (readLe32 blk 24).testBit 30 then writeLe64 blk 8 nb
        else blk) 16 fs.xid),
    freeBlocks := fb',
    fq := apfs_free_queue_insert fs.fq bno 1,
    trans := apfs_transaction_join fs.trans nb,
    csumFlagged := nb :: fs.csumFlagged }

/-- A one-block container already owning its object: header xid 1 equals
the current transaction id. -/
def cowFs1 : FS :=
  { disk := fun b => if b = 5 then some cowBlk else none, xid := 1,
    checkNodes := false, freeBlocks := [], fq := [], trans := [],
    csumFlagged := [] }

theorem toLeBytes_length (n v : Nat) : (toLeBytes n v).length = n := by
  induction n generalizing v with
  | zero => rfl
  | succ n ih => simp [toLeBytes, ih]

theorem toLeBytes_lt (n v : Nat) : ∀ b ∈ toLeBytes n v, b < 256 := by
  induction n generalizing v with
  | zero =>
    intro b hb
    exact absurd hb (List.not_mem_nil b)
  | succ n ih =>
    intro b hb
    simp only [toLeBytes, List.mem_cons] at hb
    rcases hb with h | h
    · omega
    · exact ih _ _ h

theorem fromLeBytes_toLeBytes (n v : Nat) (h : v < 2 ^ (8 * n)) :
    fromLeBytes (toLeBytes n v) = v := by
  induction n generalizing v with
  | zero =>
    have hv : v = 0 := by
      have h1 : (2 : Nat) ^ (8 * 0) = 1 := by norm_num
      omega
    subst hv
    rfl
  | succ n ih =>
    have hdiv : v / 256 < 2 ^ (8 * n) := by
      apply Nat.div_lt_of_lt_mul
      calc v < 2 ^ (8 * (n + 1)) := h
        _ = 2 ^ (8 * n) * 256 := by ring
        _ = 256 * 2 ^ (8 * n) := by ring
    simp only [toLeBytes, fromLeBytes, ih _ hdiv]
    omega

theorem writeLe64_zero (blk : List Nat) (v : Nat) :
    writeLe64 blk 0 v = toLeBytes 8 v ++ blk.drop 8 := by
  simp [writeLe64]

theorem drop8_writeLe64_zero (blk : List Nat) (v : Nat) :
    (writeLe64 blk 0 v).drop 8 = blk.drop 8 := by
  rw [writeLe64_zero]
  exact List.drop_left' (toLeBytes_length 8 v)

theorem readLe64_writeLe64_zero (blk : List Nat) (v : Nat) (hv : v < 2 ^ 64) :
    readLe64 (writeLe64 blk 0 v) 0 = v := by
  rw [writeLe64_zero]
  unfold readLe64
  rw [List.drop_zero, List.take_left' (toLeBytes_length 8 v)]
  exact fromLeBytes_toLeBytes 8 v (by norm_num; omega)

theorem fletcher_c1_lt (s : Nat) : FLMOD - s % U64 % FLMOD < 4294967296 := by
  have : s % U64 % FLMOD < FLMOD := Nat.mod_lt _ (by decide)
  simp only [FLMOD] at *
  omega

/-- The packed fletcher result fits in 64 bits. -/
theorem apfs_fletcher64_lt (bytes : List Nat) : apfs_fletcher64 bytes < 2 ^ 64 := by
  unfold apfs_fletcher64
  have h1 := fletcher_c1_lt ((fletcherLoop (leWords bytes) (0, 0)).1 +
    (fletcherLoop (leWords bytes) (0, 0)).2)
  have h2 : FLMOD - ((fletcherLoop (leWords bytes) (0, 0)).1 +
      (FLMOD - ((fletcherLoop (leWords bytes) (0, 0)).1 +
        (fletcherLoop (leWords bytes) (0, 0)).2) % U64 % FLMOD)) % U64 % FLMOD ≤
      FLMOD := by omega
  simp only [FLMOD] at *
  omega

/-- C5: after `apfs_obj_set_csum` writes the recomputed checksum of a block
(of bounded size, at most 64 KiB) into the header checksum field,
`apfs_obj_verify_csum` on the resulting block returns true; the written
header field holds exactly the fletcher checksum of the bytes outside the
fixed-size checksum field, and those bytes are untouched by the update. -/
theorem obj_set_csum_then_verify (blk : List Nat) (hlen : blk.length ≤ 65536) :
    apfs_obj_verify_csum (apfs_obj_set_csum blk) = true
    ∧ (apfs_obj_set_csum blk).drop APFS_MAX_CKSUM_SIZE = blk.drop APFS_MAX_CKSUM_SIZE
    ∧ readLe64 (apfs_obj_set_csum blk) 0
        = apfs_fletcher64 (blk.drop APFS_MAX_CKSUM_SIZE) := by
  have hdrop : (apfs_obj_set_csum blk).drop APFS_MAX_CKSUM_SIZE
      = blk.drop APFS_MAX_CKSUM_SIZE := by
    unfold apfs_obj_set_csum APFS_MAX_CKSUM_SIZE
    exact drop8_writeLe64_zero _ _
  have hread : readLe64 (apfs_obj_set_csum blk) 0
      = apfs_fletcher64 (blk.drop APFS_MAX_CKSUM_SIZE) := by
    unfold apfs_obj_set_csum
    exact readLe64_writeLe64_zero _ _ (apfs_fletcher64_lt _)
  refine ⟨?_, hdrop, hread⟩
  unfold apfs_obj_verify_csum
  rw [hdrop, hread]
  simp

/-- C5 witness: a concrete 16-byte block. -/
theorem obj_set_csum_then_verify_witness :
    apfs_obj_verify_csum
        (apfs_obj_set_csum [9, 9, 9, 9, 9, 9, 9, 9, 1, 2, 3, 4, 5, 6, 7, 8]) = true :=
  (obj_set_csum_then_verify [9, 9, 9, 9, 9, 9, 9, 9, 1, 2, 3, 4, 5, 6, 7, 8]
    (by norm_num)).1

/-- Four-bytes-at-a-time induction matching the word grouping of the C loop. -/
theorem fourChunkInduction (P : List Nat → Prop)
    (hshort : ∀ l, l.length < 4 → P l)
    (hstep : ∀ b0 b1 b2 b3 rest, P rest → P (b0 :: b1 :: b2 :: b3 :: rest)) :
    ∀ l, P l
  | b0 :: b1 :: b2 :: b3 :: rest =>
      hstep b0 b1 b2 b3 rest (fourChunkInduction P hshort hstep rest)
  | [] => hshort [] (by simp)
  | [a] => hshort [a] (by simp)
  | [a, b] => hshort [a, b] (by simp)
  | [a, b, c] => hshort [a, b, c] (by simp)

theorem leWords_length : ∀ l : List Nat, (leWords l).length = l.length / 4 := by
  intro l
  induction l using fourChunkInduction with
  | hshort l hl =>
    match l, hl with
    | [], _ => simp [leWords]
    | [a], _ => simp [leWords]
    | [a, b], _ => simp [leWords]
    | [a, b, c], _ => simp [leWords]
  | hstep b0 b1 b2 b3 rest ih =>
    simp only [leWords, List.length_cons, ih]
    omega

theorem leWords_lt : ∀ l : List Nat, ∀ w ∈ leWords l, w < 4294967296 := by
  intro l
  induction l using fourChunkInduction with
  | hshort l hl =>
    match l, hl with
    | [], _ => intro w hw; exact absurd hw (List.not_mem_nil w)
    | [a], _ => intro w hw; exact absurd hw (List.not_mem_nil w)
    | [a, b], _ => intro w hw; exact absurd hw (List.not_mem_nil w)
    | [a, b, c], _ => intro w hw; exact absurd hw (List.not_mem_nil w)
  | hstep b0 b1 b2 b3 rest ih =>
    intro w hw
    simp only [leWords, List.mem_cons] at hw
    rcases hw with h | h
    · have h0 : b0 % 256 < 256 := Nat.mod_lt _ (by omega)
      have h1 : b1 % 256 < 256 := Nat.mod_lt _ (by omega)
      have h2 : b2 % 256 < 256 := Nat.mod_lt _ (by omega)
      have h3 : b3 % 256 < 256 := Nat.mod_lt _ (by omega)
      omega
    · exact ih w h

theorem list_sum_le (l : List Nat) (c : Nat) (h : ∀ w ∈ l, w < c) :
    l.sum ≤ l.length * c := by
  induction l with
  | nil => simp
  | cons w ws ih =>
    have hw := h w (by simp)
    have hws := ih (fun x hx => h x (by simp [hx]))
    simp only [List.sum_cons, List.length_cons]
    calc w + ws.sum ≤ c + ws.length * c := by omega
      _ = (ws.length + 1) * c := by ring

theorem weighted_le (l : List Nat) (c : Nat) (h : ∀ w ∈ l, w < c) :
    weighted l ≤ l.length * (l.length * c) := by
  induction l with
  | nil => simp [weighted]
  | cons w ws ih =>
    have hw := h w (by simp)
    have hws := ih (fun x hx => h x (by simp [hx]))
    simp only [weighted, List.length_cons]
    have hk : (ws.length + 1) * w ≤ (ws.length + 1) * c :=
      Nat.mul_le_mul_left _ (by omega)
    calc (ws.length + 1) * w + weighted ws
        ≤ (ws.length + 1) * c + ws.length * (ws.length * c) := by omega
      _ ≤ (ws.length + 1) * ((ws.length + 1) * c) := by nlinarith

theorem list_take_set_of_le (l : List Nat) (i n a : Nat) (h : n ≤ i) :
    (l.set i a).take n = l.take n := by
  induction l generalizing i n with
  | nil => simp
  | cons x t ih =>
    cases i with
    | zero =>
      have hn : n = 0 := by omega
      subst hn
      simp
    | succ i =>
      cases n with
      | zero => simp
      | succ n => simp [List.set, List.take, ih i n (by omega)]

theorem list_drop_set_of_le (l : List Nat) (i n a : Nat) (h : n ≤ i) :
    (l.set i a).drop n = (l.drop n).set (i - n) a := by
  rw [List.drop_set, if_neg (by omega)]

theorem list_sum_set (l : List Nat) (q y : Nat) (hq : q < l.length) :
    (l.set q y).sum + l.getD q 0 = l.sum + y := by
  induction l generalizing q with
  | nil => simp at hq
  | cons x t ih =>
    cases q with
    | zero => simp [List.set]; omega
    | succ q =>
      have := ih q (by simpa using hq)
      simp only [List.set, List.sum_cons, List.getD_cons_succ]
      omega

theorem weighted_set (l : List Nat) (q y : Nat) (hq : q < l.length) :
    weighted (l.set q y) + (l.length - q) * l.getD q 0
      = weighted l + (l.length - q) * y := by
  induction l generalizing q with
  | nil => simp at hq
  | cons x t ih =>
    cases q with
    | zero =>
      simp only [List.set, weighted, List.getD_cons_zero, List.length_cons,
        List.length_set, Nat.sub_zero]
      omega
    | succ q =>
      have hih := ih q (by simpa using hq)
      simp only [List.set, weighted, List.getD_cons_succ, List.length_cons,
        List.length_set]
      have hsub : t.length + 1 - (q + 1) = t.length - q := by omega
      rw [hsub]
      linarith

theorem fletcherLoop_plain (ws : List Nat) (s1 s2 : Nat)
    (h1 : s1 + ws.sum < U64)
    (h2 : s2 + ws.length * s1 + weighted ws < U64) :
    fletcherLoop ws (s1, s2) = (s1 + ws.sum, s2 + ws.length * s1 + weighted ws) := by
  induction ws generalizing s1 s2 with
  | nil => simp [fletcherLoop, weighted]
  | cons w ws ih =>
    simp only [List.sum_cons, List.length_cons, weighted] at h1 h2 ⊢
    have hs1 : s1 + w < U64 := by omega
    have hmul1 : s1 ≤ (ws.length + 1) * s1 := Nat.le_mul_of_pos_left _ (by omega)
    have hmul2 : w ≤ (ws.length + 1) * w := Nat.le_mul_of_pos_left _ (by omega)
    have hs2 : s2 + (s1 + w) < U64 := by omega
    have hexp : (ws.length + 1) * s1 + ((ws.length + 1) * w + weighted ws)
        = (s1 + w) + (ws.length * (s1 + w) + weighted ws) := by ring
    simp only [fletcherLoop, Nat.mod_eq_of_lt hs1, Nat.mod_eq_of_lt hs2]
    rw [ih (s1 + w) (s2 + (s1 + w)) (by omega) (by linarith)]
    simp only [Prod.mk.injEq]
    refine ⟨by omega, by linarith⟩

theorem list_set_add_four (b0 b1 b2 b3 : Nat) (rest : List Nat) (o y : Nat) :
    (b0 :: b1 :: b2 :: b3 :: rest).set (o + 4) y
      = b0 :: b1 :: b2 :: b3 :: rest.set o y := rfl

theorem list_getD_add_four (b0 b1 b2 b3 : Nat) (rest : List Nat) (o : Nat) :
    (b0 :: b1 :: b2 :: b3 :: rest).getD (o + 4) 0 = rest.getD o 0 := rfl

/-- A single byte change inside the word area of a byte string changes exactly
one 32-bit word, by `256^(o % 4)` times the byte difference. -/
theorem leWords_set : ∀ (l : List Nat) (o y : Nat),
    (∀ b ∈ l, b < 256) → y < 256 → o < 4 * (l.length / 4) →
    ∃ w', leWords (l.set o y) = (leWords l).set (o / 4) w'
      ∧ w' + 256 ^ (o % 4) * l.getD o 0
          = (leWords l).getD (o / 4) 0 + 256 ^ (o % 4) * y := by
  intro l
  induction l using fourChunkInduction with
  | hshort l hl =>
    intro o y hb hy ho
    exfalso
    omega
  | hstep b0 b1 b2 b3 rest ih =>
    intro o y hb hy ho
    have hb0 : b0 < 256 := hb b0 (by simp)
    have hb1 : b1 < 256 := hb b1 (by simp)
    have hb2 : b2 < 256 := hb b2 (by simp)
    have hb3 : b3 < 256 := hb b3 (by simp)
    by_cases hlt : o < 4
    · interval_cases o
      · refine ⟨y % 256 + 256 * (b1 % 256) + 65536 * (b2 % 256)
          + 16777216 * (b3 % 256), ?_, ?_⟩
        · simp [leWords, List.set]
        · norm_num [leWords, Nat.mod_eq_of_lt hb0, Nat.mod_eq_of_lt hb1,
            Nat.mod_eq_of_lt hb2, Nat.mod_eq_of_lt hb3, Nat.mod_eq_of_lt hy]
          omega
      · refine ⟨b0 % 256 + 256 * (y % 256) + 65536 * (b2 % 256)
          + 16777216 * (b3 % 256), ?_, ?_⟩
        · simp [leWords, List.set]
        · norm_num [leWords, Nat.mod_eq_of_lt hb0, Nat.mod_eq_of_lt hb1,
            Nat.mod_eq_of_lt hb2, Nat.mod_eq_of_lt hb3, Nat.mod_eq_of_lt hy]
          omega
      · refine ⟨b0 % 256 + 256 * (b1 % 256) + 65536 * (y % 256)
          + 16777216 * (b3 % 256), ?_, ?_⟩
        · simp [leWords, List.set]
        · norm_num [leWords, Nat.mod_eq_of_lt hb0, Nat.mod_eq_of_lt hb1,
            Nat.mod_eq_of_lt hb2, Nat.mod_eq_of_lt hb3, Nat.mod_eq_of_lt hy]
          omega
      · refine ⟨b0 % 256 + 256 * (b1 % 256) + 65536 * (b2 % 256)
          + 16777216 * (y % 256), ?_, ?_⟩
        · simp [leWords, List.set]
        · norm_num [leWords, Nat.mod_eq_of_lt hb0, Nat.mod_eq_of_lt hb1,
            Nat.mod_eq_of_lt hb2, Nat.mod_eq_of_lt hb3, Nat.mod_eq_of_lt hy]
          omega
    · obtain ⟨o', rfl⟩ : ∃ o', o = o' + 4 := ⟨o - 4, by omega⟩
      have hrest : ∀ b ∈ rest, b < 256 := fun b hbm => hb b (by simp [hbm])
      have ho' : o' < 4 * (rest.length / 4) := by
        simp only [List.length_cons] at ho
        omega
      obtain ⟨w', heq, hrel⟩ := ih o' y hrest hy ho'
      have hdiv : (o' + 4) / 4 = o' / 4 + 1 := by omega
      have hmod : (o' + 4) % 4 = o' % 4 := by omega
      refine ⟨w', ?_, ?_⟩
      · rw [list_set_add_four]
        simp only [leWords, heq, hdiv, List.set]
      · rw [list_getD_add_four, hdiv, hmod]
        simpa only [leWords, List.getD_cons_succ] using hrel

/-- Closed form of the fletcher checksum for blocks within the 64 KiB bound:
the u64 wrap-around never triggers, c1 is the complement of
`(Σ wᵢ + Σ (n-i)·wᵢ) mod 0xFFFFFFFF` and c2 the complement of
`(Σ wᵢ + c1) mod 0xFFFFFFFF`. -/
theorem apfs_fletcher64_closed (bytes : List Nat) (hlen : bytes.length ≤ 65536) :
    apfs_fletcher64 bytes
      = (FLMOD - ((leWords bytes).sum
            + (FLMOD - ((leWords bytes).sum + weighted (leWords bytes)) % FLMOD))
              % FLMOD) * 4294967296
        + (FLMOD - ((leWords bytes).sum + weighted (leWords bytes)) % FLMOD) := by
  have hwlt := leWords_lt bytes
  have hwlen : (leWords bytes).length = bytes.length / 4 := leWords_length bytes
  have hn : (leWords bytes).length ≤ 16384 := by omega
  have hsum : (leWords bytes).sum ≤ (leWords bytes).length * 4294967296 :=
    list_sum_le _ _ hwlt
  have hwt : weighted (leWords bytes)
      ≤ (leWords bytes).length * ((leWords bytes).length * 4294967296) :=
    weighted_le _ _ hwlt
  have hS : (leWords bytes).sum + weighted (leWords bytes) < U64 := by
    have h1 : (leWords bytes).length * 4294967296 ≤ 16384 * 4294967296 :=
      Nat.mul_le_mul_right _ hn
    have h2 : (leWords bytes).length * ((leWords bytes).length * 4294967296)
        ≤ 16384 * (16384 * 4294967296) :=
      Nat.mul_le_mul hn (Nat.mul_le_mul_right 4294967296 hn)
    simp only [U64]
    omega
  have hloop := fletcherLoop_plain (leWords bytes) 0 0 (by omega) (by
    simp only [Nat.mul_zero, Nat.add_zero, Nat.zero_add]
    omega)
  unfold apfs_fletcher64
  rw [hloop]
  simp only [Nat.mul_zero, Nat.add_zero, Nat.zero_add]
  have hc1 : ((leWords bytes).sum + weighted (leWords bytes)) % U64
      = ((leWords bytes).sum + weighted (leWords bytes)) := Nat.mod_eq_of_lt hS
  rw [hc1]
  have hc1b : FLMOD - ((leWords bytes).sum + weighted (leWords bytes)) % FLMOD
      ≤ FLMOD := by omega
  have hS2 : (leWords bytes).sum
      + (FLMOD - ((leWords bytes).sum + weighted (leWords bytes)) % FLMOD) < U64 := by
    simp only [U64, FLMOD] at *
    omega
  rw [Nat.mod_eq_of_lt hS2]

/-- Core detection property: changing a single byte (to a different value)
anywhere in the word area changes the fletcher checksum.  The proof tracks the
two running sums: the combined sum changes by `(n - q + 1) · 256^r · (y - x)`,
which is a nonzero multiple of a unit modulo `0xFFFFFFFF`, so `c1` changes. -/
theorem fletcher_flip_ne (p : List Nat) (o y : Nat)
    (hlen : p.length ≤ 65528) (hdvd : 4 ∣ p.length) (ho : o < p.length)
    (hbytes : ∀ b ∈ p, b < 256) (hy : y < 256) (hne : y ≠ p.getD o 0) :
    apfs_fletcher64 (p.set o y) ≠ apfs_fletcher64 p := by
  intro hF
  have hwlt := leWords_lt p
  have hwlen := leWords_length p
  have ho4 : o < 4 * (p.length / 4) := by
    obtain ⟨k, hk⟩ := hdvd
    omega
  obtain ⟨w', hset, hrel⟩ := leWords_set p o y hbytes hy ho4
  have hxlt : p.getD o 0 < 256 := by
    apply hbytes
    rw [List.getD_eq_getElem p 0 ho]
    exact List.getElem_mem ho
  have hset_len : (p.set o y).length = p.length := by simp
  have hCp := apfs_fletcher64_closed p (by omega)
  have hCp' := apfs_fletcher64_closed (p.set o y) (by omega)
  rw [hset] at hCp'
  set x := p.getD o 0 with hxdef
  set ws := leWords p with hwsdef
  set q := o / 4 with hqdef
  set r := o % 4 with hrdef
  set w := ws.getD q 0 with hwdef
  set n := ws.length with hndef
  have hqlt : q < n := by omega
  have hn16 : n ≤ 16382 := by omega
  have hwlt' : w < 4294967296 := by
    apply hwlt
    rw [hwdef, List.getD_eq_getElem ws 0 (by omega)]
    exact List.getElem_mem (by omega)
  have hsum := list_sum_set ws q w' hqlt
  have hwtd := weighted_set ws q w' hqlt
  set S := ws.sum + weighted ws with hSdef
  set S' := (ws.set q w').sum + weighted (ws.set q w') with hSP
  have hNat : S' + ((n - q) + 1) * w = S + ((n - q) + 1) * w' := by
    rw [hSP, hSdef]
    have e1 : ((n - q) + 1) * w = w + (n - q) * w := by ring
    have e2 : ((n - q) + 1) * w' = w' + (n - q) * w' := by ring
    rw [e1, e2]
    linarith
  simp only [FLMOD] at hCp hCp' hF
  have hmodlt : S % 4294967295 < 4294967295 := Nat.mod_lt _ (by norm_num)
  have hmodlt' : S' % 4294967295 < 4294967295 := Nat.mod_lt _ (by norm_num)
  have hSmod : S % 4294967295 = S' % 4294967295 := by
    rw [hCp, hCp'] at hF
    omega
  have hcast : ((S : Nat) : ZMod FLMOD) = ((S' : Nat) : ZMod FLMOD) :=
    (ZMod.natCast_eq_natCast_iff' S S' FLMOD).mpr hSmod
  have hCw : (((n - q : Nat) : ZMod FLMOD) + 1) * (w : ZMod FLMOD)
      = (((n - q : Nat) : ZMod FLMOD) + 1) * (w' : ZMod FLMOD) := by
    have hc := congrArg (fun t : Nat => ((t : Nat) : ZMod FLMOD)) hNat
    push_cast at hc
    rw [← hcast] at hc
    exact add_left_cancel hc
  have hrelZ : (w' : ZMod FLMOD) + (256 : ZMod FLMOD) ^ r * (x : ZMod FLMOD)
      = (w : ZMod FLMOD) + (256 : ZMod FLMOD) ^ r * (y : ZMod FLMOD) := by
    have hc := congrArg (fun t : Nat => ((t : Nat) : ZMod FLMOD)) hrel
    push_cast at hc
    exact hc
  have hCEx : (((n - q : Nat) : ZMod FLMOD) + 1) * ((256 : ZMod FLMOD) ^ r * (x : ZMod FLMOD))
      = (((n - q : Nat) : ZMod FLMOD) + 1) * ((256 : ZMod FLMOD) ^ r * (y : ZMod FLMOD)) := by
    have hc := congrArg (fun t => (((n - q : Nat) : ZMod FLMOD) + 1) * t) hrelZ
    simp only [mul_add] at hc
    rw [← hCw] at hc
    exact add_left_cancel hc
  have hone : (256 : ZMod FLMOD) ^ r * (2 : ZMod FLMOD) ^ (32 - 8 * r) = 1 := by
    have h256 : (256 : ZMod FLMOD) = (2 : ZMod FLMOD) ^ 8 := by norm_num
    rw [h256, ← pow_mul, ← pow_add]
    have hexp : 8 * r + (32 - 8 * r) = 32 := by omega
    rw [hexp]
    have hval : ((4294967296 : Nat) : ZMod FLMOD) = 1 := by
      have h0 : ((FLMOD : Nat) : ZMod FLMOD) = 0 := ZMod.natCast_self FLMOD
      have h1 : ((4294967296 : Nat) : ZMod FLMOD)
          = ((FLMOD : Nat) : ZMod FLMOD) + 1 := by
        simp only [FLMOD]
        push_cast
        norm_num
      rw [h1, h0, zero_add]
    calc (2 : ZMod FLMOD) ^ 32 = ((2 ^ 32 : Nat) : ZMod FLMOD) := by push_cast; ring
      _ = 1 := by norm_num at hval ⊢; exact hval
  have hfin : ((((n - q) + 1) * x : Nat) : ZMod FLMOD)
      = ((((n - q) + 1) * y : Nat) : ZMod FLMOD) := by
    have hc := congrArg (fun t => t * (2 : ZMod FLMOD) ^ (32 - 8 * r)) hCEx
    simp only at hc
    have el : (((n - q : Nat) : ZMod FLMOD) + 1) * ((256 : ZMod FLMOD) ^ r * (x : ZMod FLMOD))
        * (2 : ZMod FLMOD) ^ (32 - 8 * r)
        = (((n - q : Nat) : ZMod FLMOD) + 1) * (x : ZMod FLMOD)
          * ((256 : ZMod FLMOD) ^ r * (2 : ZMod FLMOD) ^ (32 - 8 * r)) := by ring
    have er : (((n - q : Nat) : ZMod FLMOD) + 1) * ((256 : ZMod FLMOD) ^ r * (y : ZMod FLMOD))
        * (2 : ZMod FLMOD) ^ (32 - 8 * r)
        = (((n - q : Nat) : ZMod FLMOD) + 1) * (y : ZMod FLMOD)
          * ((256 : ZMod FLMOD) ^ r * (2 : ZMod FLMOD) ^ (32 - 8 * r)) := by ring
    rw [el, er, hone, mul_one, mul_one] at hc
    push_cast
    exact hc
  have hmod2 : ((n - q) + 1) * x % FLMOD = ((n - q) + 1) * y % FLMOD :=
    (ZMod.natCast_eq_natCast_iff' _ _ _).mp hfin
  have hbx : ((n - q) + 1) * x < FLMOD := by
    have h1 : ((n - q) + 1) * x ≤ 16383 * 256 := Nat.mul_le_mul (by omega) (by omega)
    simp only [FLMOD]
    omega
  have hby : ((n - q) + 1) * y < FLMOD := by
    have h1 : ((n - q) + 1) * y ≤ 16383 * 256 := Nat.mul_le_mul (by omega) (by omega)
    simp only [FLMOD]
    omega
  have hCxy : ((n - q) + 1) * x = ((n - q) + 1) * y := by
    rw [← Nat.mod_eq_of_lt hbx, ← Nat.mod_eq_of_lt hby, hmod2]
  have hxy : x = y := Nat.eq_of_mul_eq_mul_left (by omega) hCxy
  exact hne hxy.symm

/-- Flipping one byte outside the header checksum field falsifies
`apfs_obj_verify_csum` on any block whose stored checksum was valid. -/
theorem obj_verify_csum_flip (blk : List Nat) (o y : Nat)
    (hlen : blk.length ≤ 65536) (hdvd : 4 ∣ blk.length)
    (ho8 : 8 ≤ o) (ho : o < blk.length)
    (hbytes : ∀ b ∈ blk, b < 256) (hy : y < 256) (hne : y ≠ blk.getD o 0)
    (hvalid : apfs_obj_verify_csum blk = true) :
    apfs_obj_verify_csum (blk.set o y) = false := by
  have hdrop : (blk.set o y).drop 8 = (blk.drop 8).set (o - 8) y :=
    list_drop_set_of_le blk o 8 y ho8
  have htake : (blk.set o y).take 8 = blk.take 8 :=
    list_take_set_of_le blk o 8 y ho8
  have hplen : (blk.drop 8).length = blk.length - 8 := by simp
  have hgd : (blk.drop 8).getD (o - 8) 0 = blk.getD o 0 := by
    have h1 : o - 8 < (blk.drop 8).length := by omega
    rw [List.getD_eq_getElem _ _ h1, List.getD_eq_getElem _ _ ho]
    rw [List.getElem_drop]
    congr 1
    omega
  have hflip : apfs_fletcher64 ((blk.drop 8).set (o - 8) y)
      ≠ apfs_fletcher64 (blk.drop 8) := by
    apply fletcher_flip_ne
    · omega
    · obtain ⟨k, hk⟩ := hdvd
      exact ⟨k - 2, by omega⟩
    · omega
    · intro b hb
      exact hbytes b (List.mem_of_mem_drop hb)
    · exact hy
    · rw [hgd]
      exact hne
  have hread : readLe64 (blk.set o y) 0 = readLe64 blk 0 := by
    unfold readLe64
    rw [List.drop_zero, List.drop_zero, htake]
  unfold apfs_obj_verify_csum at hvalid ⊢
  simp only [APFS_MAX_CKSUM_SIZE] at hvalid ⊢
  rw [hdrop, hread]
  simp only [beq_iff_eq] at hvalid ⊢
  simp only [Bool.eq_false_iff, ne_eq, beq_iff_eq]
  rw [hvalid]
  exact fun hc => hflip hc.symm

/-- u64 addition without wrap-around. -/
theorem u64add_small (a b : Nat) (h : a + b < 18446744073709551616) :
    u64add a b = a + b := by
  unfold u64add
  exact Nat.mod_eq_of_lt h

/-- u64 subtraction without wrap-around. -/
theorem u64sub_small (a b : Nat) (hb : b <= a) (ha : a < 18446744073709551616) :
    u64sub a b = a - b := by
  unfold u64sub w64
  rw [Nat.mod_eq_of_lt ha, Nat.mod_eq_of_lt (by omega : b < 18446744073709551616)]
  have he : a + (18446744073709551616 - b) = (a - b) + 18446744073709551616 := by
    omega
  rw [he, Nat.add_mod_right]
  exact Nat.mod_eq_of_lt (by omega)

/-- `(b + a) - b` in u64 arithmetic is `a mod 2^64`. -/
theorem u64sub_u64add_cancel (b a : Nat) (hb : b < 18446744073709551616) :
    u64sub (u64add b a) b = a % 18446744073709551616 := by
  unfold u64add u64sub w64
  rw [Nat.mod_eq_of_lt (Nat.mod_lt (b + a) (by norm_num)),
    Nat.mod_eq_of_lt hb, Nat.mod_add_mod]
  have he : b + a + (18446744073709551616 - b) = a + 18446744073709551616 := by
    omega
  rw [he, Nat.add_mod_right]

/-- Round trip of the circular data-area arithmetic: converting an index to a
block number and back is the identity for in-range indices. -/
theorem index_in_data_area_data_index_to_bno (p : CpmSB) (j : Nat)
    (hbase : p.data_base < 18446744073709551616)
    (hidx : p.data_index < p.data_blks)
    (hblks : p.data_blks <= 4294967295)
    (hj : j < p.data_blks) :
    apfs_index_in_data_area p (apfs_data_index_to_bno p j) = j := by
  have hm : (j + p.data_index) % p.data_blks < p.data_blks :=
    Nat.mod_lt _ (by omega)
  unfold apfs_index_in_data_area apfs_data_index_to_bno
  rw [u64sub_u64add_cancel _ _ hbase,
    Nat.mod_eq_of_lt (by omega : (j + p.data_index) % p.data_blks
      < 18446744073709551616),
    u64add_small _ _ (by omega),
    u64sub_small _ _ (by omega) (by omega)]
  have he : (j + p.data_index) % p.data_blks + p.data_blks - p.data_index
      = (j + p.data_index) % p.data_blks + (p.data_blks - p.data_index) := by
    omega
  rw [he, Nat.mod_add_mod]
  have he2 : j + p.data_index + (p.data_blks - p.data_index) = j + p.data_blks := by
    omega
  rw [he2, Nat.add_mod_right]
  exact Nat.mod_eq_of_lt hj

theorem lastIdxWhere_eq_none (f : CpmEntry → Bool) (l : List CpmEntry)
    (h : ∀ e ∈ l, f e = false) : lastIdxWhere f l = none := by
  induction l with
  | nil => rfl
  | cons e es ih =>
    unfold lastIdxWhere
    rw [ih (fun x hx => h x (by simp [hx])), h e (by simp)]
    simp

/-- C8: on a checkpoint-mapping block holding three entries at circular
data-area offsets 0, 1, 2, removing the block at offset 1 leaves the two
surviving entries at offsets 0 and 1 (the entry after the removed one is
shifted back one array slot, its address renumbered down by one; the last
array slot keeps its dead value) with the count decremented; and removing a
block number that matches no live entry returns `EFSCORRUPTED` with the
count unchanged. -/
theorem remove_cpoint_map_spec (p : CpmSB) (maxMaps : Nat) (a b c : CpmEntry)
    (hbase : p.data_base < 18446744073709551616)
    (hidx : p.data_index < p.data_blks)
    (hblks3 : 3 ≤ p.data_blks)
    (hblks : p.data_blks ≤ 4294967295)
    (ha : a.cpm_paddr = apfs_data_index_to_bno p 0)
    (hb : b.cpm_paddr = apfs_data_index_to_bno p 1)
    (hc : c.cpm_paddr = apfs_data_index_to_bno p 2)
    (hmax : 3 ≤ maxMaps) :
    apfs_remove_cpoint_map p maxMaps ⟨3, [a, b, c]⟩ (apfs_data_index_to_bno p 1)
      = (⟨2, [a, { c with cpm_paddr := apfs_data_index_to_bno p 1 },
                { c with cpm_paddr := apfs_data_index_to_bno p 1 }]⟩, none)
    ∧ (∀ (cpm : Cpm) (bno : Nat), cpm.cpm_count ≤ maxMaps →
        (∀ e ∈ cpm.cpm_map.take cpm.cpm_count, e.cpm_paddr ≠ bno) →
        (apfs_remove_cpoint_map p maxMaps cpm bno).2 = some .EFSCORRUPTED
        ∧ (apfs_remove_cpoint_map p maxMaps cpm bno).1.cpm_count
            = cpm.cpm_count) := by
  have h0 : apfs_index_in_data_area p a.cpm_paddr = 0 := by
    rw [ha]
    exact index_in_data_area_data_index_to_bno p 0 hbase hidx hblks (by omega)
  have h1 : apfs_index_in_data_area p b.cpm_paddr = 1 := by
    rw [hb]
    exact index_in_data_area_data_index_to_bno p 1 hbase hidx hblks (by omega)
  have h2 : apfs_index_in_data_area p c.cpm_paddr = 2 := by
    rw [hc]
    exact index_in_data_area_data_index_to_bno p 2 hbase hidx hblks (by omega)
  have hbno : apfs_index_in_data_area p (apfs_data_index_to_bno p 1) = 1 :=
    index_in_data_area_data_index_to_bno p 1 hbase hidx hblks (by omega)
  have hnea : (a.cpm_paddr == apfs_data_index_to_bno p 1) = false := by
    apply beq_false_of_ne
    intro hcontra
    rw [hcontra, hbno] at h0
    exact absurd h0 (by norm_num)
  have hneb : (b.cpm_paddr == apfs_data_index_to_bno p 1) = true := by
    rw [hb]
    exact beq_self_eq_true _
  have hnec : (c.cpm_paddr == apfs_data_index_to_bno p 1) = false := by
    apply beq_false_of_ne
    intro hcontra
    rw [hcontra, hbno] at h2
    exact absurd h2 (by norm_num)
  have e1 : renumberEntry p 1 a = a := by
    simp only [renumberEntry, h0]
    norm_num
  have e2 : renumberEntry p 1 b = b := by
    simp only [renumberEntry, h1]
    norm_num
  have e3 : renumberEntry p 1 c = { c with cpm_paddr := apfs_data_index_to_bno p 1 } := by
    simp only [renumberEntry, h2]
    norm_num
  have hlast : lastIdxWhere (fun e => e.cpm_paddr == apfs_data_index_to_bno p 1)
      [a, b, c] = some 1 := by
    simp only [lastIdxWhere, hnea, hneb, hnec]
    simp
  constructor
  · have ht : List.take 3 [a, b, c] = [a, b, c] := rfl
    have hd : List.drop 3 [a, b, c] = ([] : List CpmEntry) := rfl
    have hsh : cpmShiftDelete [a, b, { c with cpm_paddr := apfs_data_index_to_bno p 1 }] 1 3
        = [a, { c with cpm_paddr := apfs_data_index_to_bno p 1 },
            { c with cpm_paddr := apfs_data_index_to_bno p 1 }] := rfl
    simp only [apfs_remove_cpoint_map, hbno]
    rw [if_neg (show ¬(3 > maxMaps) from by omega)]
    simp only [ht, hd, List.map_cons, List.map_nil, List.append_nil, e1, e2, e3,
      hlast, hsh]
  · intro cpm bno hcount hmiss
    have hnone : lastIdxWhere (fun e => e.cpm_paddr == bno)
        (cpm.cpm_map.take cpm.cpm_count) = none := by
      apply lastIdxWhere_eq_none
      intro e he
      exact beq_false_of_ne (hmiss e he)
    simp only [apfs_remove_cpoint_map]
    rw [if_neg (show ¬(cpm.cpm_count > maxMaps) from by omega)]
    simp only [hnone]
    exact ⟨trivial, trivial⟩

/-- C8 witness: a concrete data area (base 1000, index 0, 100 blocks) with
three mappings at circular offsets 0, 1, 2. -/
theorem remove_cpoint_map_spec_witness :
    apfs_remove_cpoint_map ⟨1000, 0, 100⟩ 5
        ⟨3, [⟨0, 0, 0, 0, 0, 7, 1000⟩, ⟨0, 0, 0, 0, 0, 8, 1001⟩,
             ⟨0, 0, 0, 0, 0, 9, 1002⟩]⟩ 1001
      = (⟨2, [⟨0, 0, 0, 0, 0, 7, 1000⟩, ⟨0, 0, 0, 0, 0, 9, 1001⟩,
              ⟨0, 0, 0, 0, 0, 9, 1001⟩]⟩, none) := by
  have h := (remove_cpoint_map_spec ⟨1000, 0, 100⟩ 5
      ⟨0, 0, 0, 0, 0, 7, 1000⟩ ⟨0, 0, 0, 0, 0, 8, 1001⟩ ⟨0, 0, 0, 0, 0, 9, 1002⟩
      (by norm_num) (by norm_num) (by norm_num) (by norm_num)
      (by decide) (by decide) (by decide) (by norm_num)).1
  have hb : apfs_data_index_to_bno ⟨1000, 0, 100⟩ 1 = 1001 := by decide
  rw [hb] at h
  exact h

/-- C9: when the single supported mapping block is full, creating a
checkpoint mapping fails with the distinct `EOPNOTSUPP` error and the block
is unchanged; with capacity remaining, the new `(oid, block)` entry is
written at array position `count` and the count is incremented by one. -/
theorem create_cpoint_map_spec (maxMaps : Nat) (cpm : Cpm) (oid bno bs : Nat) :
    (maxMaps ≤ cpm.cpm_count →
        apfs_create_cpoint_map maxMaps cpm oid bno bs = (cpm, some .EOPNOTSUPP))
    ∧ (cpm.cpm_count < maxMaps →
        (apfs_create_cpoint_map maxMaps cpm oid bno bs).2 = none
        ∧ (apfs_create_cpoint_map maxMaps cpm oid bno bs).1.cpm_count
            = cpm.cpm_count + 1
        ∧ (apfs_create_cpoint_map maxMaps cpm oid bno bs).1.cpm_map
            = cpm.cpm_map.set cpm.cpm_count
                { cpm_type := APFS_OBJ_EPHEMERAL + APFS_OBJECT_TYPE_BTREE_NODE,
                  cpm_subtype := APFS_OBJECT_TYPE_SPACEMAN_FREE_QUEUE,
                  cpm_size := bs, cpm_pad := 0, cpm_fs_oid := 0,
                  cpm_oid := oid, cpm_paddr := bno }
        ∧ (cpm.cpm_count < cpm.cpm_map.length →
            ((apfs_create_cpoint_map maxMaps cpm oid bno bs).1.cpm_map.getD
                cpm.cpm_count ⟨0, 0, 0, 0, 0, 0, 0⟩).cpm_oid = oid
            ∧ ((apfs_create_cpoint_map maxMaps cpm oid bno bs).1.cpm_map.getD
                cpm.cpm_count ⟨0, 0, 0, 0, 0, 0, 0⟩).cpm_paddr = bno)) := by
  constructor
  · intro hfull
    unfold apfs_create_cpoint_map
    rw [if_pos (by omega)]
  · intro hroom
    have hbr : apfs_create_cpoint_map maxMaps cpm oid bno bs
        = ({ cpm_count := cpm.cpm_count + 1,
             cpm_map := cpm.cpm_map.set cpm.cpm_count
               { cpm_type := APFS_OBJ_EPHEMERAL + APFS_OBJECT_TYPE_BTREE_NODE,
                 cpm_subtype := APFS_OBJECT_TYPE_SPACEMAN_FREE_QUEUE,
                 cpm_size := bs, cpm_pad := 0, cpm_fs_oid := 0,
                 cpm_oid := oid, cpm_paddr := bno } }, none) := by
      unfold apfs_create_cpoint_map
      rw [if_neg (by omega)]
    refine ⟨by rw [hbr], by rw [hbr], by rw [hbr], ?_⟩
    intro hlen
    rw [hbr]
    have hget : (cpm.cpm_map.set cpm.cpm_count
        { cpm_type := APFS_OBJ_EPHEMERAL + APFS_OBJECT_TYPE_BTREE_NODE,
          cpm_subtype := APFS_OBJECT_TYPE_SPACEMAN_FREE_QUEUE,
          cpm_size := bs, cpm_pad := 0, cpm_fs_oid := 0,
          cpm_oid := oid, cpm_paddr := bno }).getD cpm.cpm_count ⟨0, 0, 0, 0, 0, 0, 0⟩
        = { cpm_type := APFS_OBJ_EPHEMERAL + APFS_OBJECT_TYPE_BTREE_NODE,
            cpm_subtype := APFS_OBJECT_TYPE_SPACEMAN_FREE_QUEUE,
            cpm_size := bs, cpm_pad := 0, cpm_fs_oid := 0,
            cpm_oid := oid, cpm_paddr := bno } := by
      rw [List.getD_eq_getElem _ _ (by simpa using hlen)]
      exact List.getElem_set_self _
    rw [hget]
    exact ⟨rfl, rfl⟩

/-- C9 witness: a full block (capacity 2) rejects creation; a block with room
appends at position `count`. -/
theorem create_cpoint_map_spec_witness :
    apfs_create_cpoint_map 2 ⟨2, [⟨0, 0, 0, 0, 0, 1, 11⟩, ⟨0, 0, 0, 0, 0, 2, 12⟩]⟩ 3 13 4096
      = (⟨2, [⟨0, 0, 0, 0, 0, 1, 11⟩, ⟨0, 0, 0, 0, 0, 2, 12⟩]⟩, some .EOPNOTSUPP)
    ∧ (apfs_create_cpoint_map 3 ⟨2, [⟨0, 0, 0, 0, 0, 1, 11⟩, ⟨0, 0, 0, 0, 0, 2, 12⟩,
          ⟨0, 0, 0, 0, 0, 0, 0⟩]⟩ 3 13 4096).1.cpm_count = 3 :=
  ⟨(create_cpoint_map_spec 2 ⟨2, [⟨0, 0, 0, 0, 0, 1, 11⟩, ⟨0, 0, 0, 0, 0, 2, 12⟩]⟩
      3 13 4096).1 (by norm_num),
   ((create_cpoint_map_spec 3 ⟨2, [⟨0, 0, 0, 0, 0, 1, 11⟩, ⟨0, 0, 0, 0, 0, 2, 12⟩,
      ⟨0, 0, 0, 0, 0, 0, 0⟩]⟩ 3 13 4096).2 (by norm_num)).2.1⟩

/-- C3: the descent depth of `apfs_btree_query` is bounded by 12 levels:
any query frame already at depth 12 is answered `EFSCORRUPTED` at once, a
tree crafted with a child pointer cycling back to an ancestor makes the
query fail with `EFSCORRUPTED` instead of looping (both on the ordinary
descent and on the before-first descent), and the same depth-12 guard
cuts off `apfs_query_set_before_first`. -/
theorem btree_query_depth_guard :
    (∀ (disk : NodeDisk) (tk : TreeKind) (key : Nat) (f : Frame) (rest : List Frame),
      12 ≤ chainDepth (f :: rest) →
      apfs_btree_query disk tk key (f :: rest) = (f :: rest, some .EFSCORRUPTED))
    ∧ (apfs_btree_query cyclicDisk .cat 5 [rootFrame 0 cyclicNode]).2
        = some .EFSCORRUPTED
    ∧ (∀ (disk : NodeDisk) (f : Frame) (rest : List Frame),
        12 ≤ chainDepth (f :: rest) →
        apfs_query_set_before_first disk (f :: rest)
          = (f :: rest, some .EFSCORRUPTED))
    ∧ (apfs_btree_query cyclicDisk .cat 3 [rootFrame 0 cyclicNode]).2
        = some .EFSCORRUPTED := by
  refine ⟨?_, ?_, ?_, ?_⟩
  · intro disk tk key f rest h
    unfold apfs_btree_query
    rw [dif_pos h]
  · simp [apfs_btree_query, apfs_query_set_before_first, apfs_node_query,
      findLe, keyMatch, keyOid, valueAt, apfs_child_from_query, fromLeBytes,
      cyclicDisk, cyclicNode, rootFrame, chainDepth, ANode.isLeaf]
  · intro disk f rest h
    unfold apfs_query_set_before_first
    rw [dif_pos h]
  · simp [apfs_btree_query, apfs_query_set_before_first, apfs_node_query,
      findLe, keyMatch, keyOid, valueAt, apfs_child_from_query, fromLeBytes,
      cyclicDisk, cyclicNode, rootFrame, chainDepth, ANode.isLeaf]

/-- C3 witness: a concrete chain already at depth 12 is rejected, on both
descent paths. -/
theorem btree_query_depth_guard_witness :
    apfs_btree_query cyclicDisk .cat 5 (List.replicate 13 (rootFrame 0 cyclicNode))
      = (List.replicate 13 (rootFrame 0 cyclicNode), some .EFSCORRUPTED)
    ∧ apfs_query_set_before_first cyclicDisk
        (List.replicate 13 (rootFrame 0 cyclicNode))
      = (List.replicate 13 (rootFrame 0 cyclicNode), some .EFSCORRUPTED) := by
  constructor
  · have h := btree_query_depth_guard.1 cyclicDisk .cat 5 (rootFrame 0 cyclicNode)
      (List.replicate 12 (rootFrame 0 cyclicNode)) (by simp [chainDepth])
    simpa [List.replicate_succ] using h
  · have h := btree_query_depth_guard.2.2.1 cyclicDisk (rootFrame 0 cyclicNode)
      (List.replicate 12 (rootFrame 0 cyclicNode)) (by simp [chainDepth])
    simpa [List.replicate_succ] using h

/-- Case analysis of `apfs_query_set_before_first`: on success the resulting
chain is a leaf frame at index -1 on top of index-0 frames spliced onto the
original ancestors; on failure the error is corruption or an I/O error,
never `ENODATA`. -/
theorem set_before_first_cases (disk : NodeDisk) :
    ∀ (m : Nat) (q : List Frame) (r : List Frame × Option Errno),
    13 - q.length = m →
    apfs_query_set_before_first disk q = r →
    (r.2 = none →
      ∃ g mid, r.1 = g :: mid ++ q.tail ∧ g.index = -1 ∧ g.node.isLeaf = true
        ∧ ∀ f ∈ mid, f.index = 0)
    ∧ (∀ e, r.2 = some e → e = .EFSCORRUPTED ∨ e = Errno.EIO) := by
  intro m
  induction m using Nat.strong_induction_on with
  | _ m ih =>
    intro q r hm hq
    match q with
    | [] =>
      rw [apfs_query_set_before_first] at hq
      rw [← hq]
      exact ⟨fun hnone => by simp at hnone, fun e he => by simp at he; simp [he]⟩
    | f :: rest =>
      rw [apfs_query_set_before_first] at hq
      by_cases hdep : 12 ≤ chainDepth (f :: rest)
      · rw [dif_pos hdep] at hq
        rw [← hq]
        exact ⟨fun hnone => by simp at hnone, fun e he => by simp at he; simp [he]⟩
      · rw [dif_neg hdep] at hq
        by_cases hleaf : f.node.isLeaf
        · rw [if_pos hleaf] at hq
          rw [← hq]
          refine ⟨fun hnone => ?_, fun e he => by simp at he⟩
          exact ⟨{ f with index := -1 }, [], by simp, rfl, hleaf, by simp⟩
        · rw [if_neg hleaf] at hq
          simp only at hq
          split at hq
          · rename_i e hcq
            rw [← hq]
            refine ⟨fun hnone => by simp at hnone, fun e2 he2 => ?_⟩
            simp only [Option.some.injEq] at he2
            left
            rw [← he2]
            simp only [apfs_child_from_query] at hcq
            split at hcq
            · exact (((Except.error.injEq _ _).mp hcq).symm : e = Errno.EFSCORRUPTED)
            · simp at hcq
          · rename_i cid hcq
            split at hq
            · rw [← hq]
              exact ⟨fun hnone => by simp at hnone,
                fun e he => by simp at he; simp [he]⟩
            · rename_i child hdisk
              have hlt : ∀ (g1 g2 : Frame),
                  13 - (g1 :: g2 :: rest : List Frame).length < m := by
                intro g1 g2
                simp only [chainDepth, List.length_cons] at hdep hm ⊢
                omega
              have hrec := ih _ (hlt _ _) _ r rfl hq
              refine ⟨fun hnone => ?_, hrec.2⟩
              obtain ⟨g, mid, hgm, hgi, hgl, hmid⟩ := hrec.1 hnone
              refine ⟨g, mid ++ [{ f with index := 0 }], ?_, hgi, hgl, ?_⟩
              · rw [hgm]
                simp
              · intro x hx
                rcases List.mem_append.mp hx with hx' | hx'
                · exact hmid x hx'
                · simp at hx'
                  rw [hx']

/-- C7: when an exact-match query started at the root falls before the very
first record (the root-node search reports not-found at position -1), the
query returns `ENODATA` with the final chain positioned at index -1 on the
leaf frame and index 0 on every ancestor frame; and a not-found that occurs
at a frame that still has a parent returns `ENODATA` directly, leaving the
ancestors untouched (the before-first state is only established at the
root frame). -/
theorem before_first_query_shape :
    (∀ (disk : NodeDisk) (tk : TreeKind) (key : Nat) (rf : Frame)
        (q' : List Frame),
      findLe key rf.node.recs = none →
      apfs_btree_query disk tk key [rf] = (q', some .ENODATA) →
      ∃ g mid, q' = g :: mid ∧ g.index = -1 ∧ g.node.isLeaf = true
        ∧ ∀ f ∈ mid, f.index = 0)
    ∧ (∀ (disk : NodeDisk) (tk : TreeKind) (key : Nat) (f : Frame)
        (rest : List Frame) (i : Int),
        rest ≠ [] → chainDepth (f :: rest) < 12 →
        apfs_node_query tk key f.node = .enodata i →
        apfs_btree_query disk tk key (f :: rest)
          = ({ f with index := i } :: rest, some .ENODATA)) := by
  constructor
  · intro disk tk key rf q' hfind hq
    rw [apfs_btree_query] at hq
    rw [dif_neg (by simp [chainDepth])] at hq
    have hnq : apfs_node_query tk key rf.node = .enodata (-1) := by
      unfold apfs_node_query
      rw [hfind]
    simp only [hnq, List.isEmpty_nil, Bool.true_and] at hq
    rw [if_pos (by norm_num)] at hq
    rcases hsb : apfs_query_set_before_first disk [{ rf with index := -1 }]
      with ⟨q'', e⟩
    rw [hsb] at hq
    rcases e with _ | e
    · simp only at hq
      have hshape := (set_before_first_cases disk _ _ _ rfl hsb).1 rfl
      obtain ⟨g, mid, hgm, hgi, hgl, hmid⟩ := hshape
      have hq1 : q'' = q' := congrArg Prod.fst hq
      simp only [List.tail_cons, List.append_nil] at hgm
      exact ⟨g, mid, by rw [← hq1]; exact hgm, hgi, hgl, hmid⟩
    · simp only at hq
      have he : e = .ENODATA := by
        have := congrArg Prod.snd hq
        simpa using this
      have habs := (set_before_first_cases disk _ _ _ rfl hsb).2 e rfl
      rw [he] at habs
      rcases habs with habs | habs <;> exact absurd habs (by simp)
  · intro disk tk key f rest i hrest hdep hnq
    rw [apfs_btree_query]
    rw [dif_neg (by omega)]
    simp only [hnq]
    cases rest with
    | nil => exact absurd rfl hrest
    | cons a t => simp

/-- C7 witness: querying key 3, which precedes the first record (key 5), of
the two-level witness tree. -/
theorem before_first_query_shape_witness :
    ∃ g mid, (apfs_btree_query bfDisk .cat 3 [rootFrame 0 bfRoot]).1 = g :: mid
      ∧ g.index = -1 ∧ g.node.isLeaf = true ∧ ∀ f ∈ mid, f.index = 0 := by
  have hq : apfs_btree_query bfDisk .cat 3 [rootFrame 0 bfRoot]
      = ([{ bno := 1, node := bfLeaf, index := -1 },
          { bno := 0, node := bfRoot, index := 0 }], some .ENODATA) := by
    simp [apfs_btree_query, apfs_query_set_before_first, apfs_node_query, findLe,
      keyMatch, keyOid, valueAt, apfs_child_from_query, fromLeBytes, bfDisk,
      bfRoot, bfLeaf, rootFrame, chainDepth, ANode.isLeaf]
  obtain ⟨g, mid, hgm, h1, h2, h3⟩ := before_first_query_shape.1 bfDisk .cat 3
    (rootFrame 0 bfRoot) _ (by decide) hq
  exact ⟨g, mid, by rw [hq]; exact hgm, h1, h2, h3⟩

/-- C10: a nonleaf record selected for descent whose value is not exactly 8
bytes stops the query with `EFSCORRUPTED`: `apfs_child_from_query` produces
no child id for any value of another length, and the descent step returns
the corruption error. -/
theorem child_value_length_guard :
    (∀ (val : List Nat), val.length ≠ 8 →
      apfs_child_from_query val = .error .EFSCORRUPTED)
    ∧ (∀ (disk : NodeDisk) (tk : TreeKind) (key : Nat) (f : Frame)
        (rest : List Frame) (i : Nat),
        chainDepth (f :: rest) < 12 →
        apfs_node_query tk key f.node = .found i →
        f.node.isLeaf = false →
        (valueAt f.node i).length ≠ 8 →
        apfs_btree_query disk tk key (f :: rest)
          = ({ f with index := Int.ofNat i } :: rest, some .EFSCORRUPTED)) := by
  constructor
  · intro val hval
    unfold apfs_child_from_query
    rw [if_pos hval]
  · intro disk tk key f rest i hdep hnq hleaf hval
    rw [apfs_btree_query, dif_neg (by omega)]
    simp only [hnq, hleaf, apfs_child_from_query, if_pos hval]
    simp

/-- C10 witness: descending through the 3-byte value fails with
`EFSCORRUPTED` before any child is read. -/
theorem child_value_length_guard_witness :
    apfs_child_from_query [1, 2, 3] = .error .EFSCORRUPTED
    ∧ apfs_btree_query (fun _ => none) .cat 0 [rootFrame 7 badChildRoot]
      = ([{ bno := 7, node := badChildRoot, index := 0 }], some .EFSCORRUPTED) := by
  constructor
  · exact child_value_length_guard.1 [1, 2, 3] (by norm_num)
  · have h := child_value_length_guard.2 (fun _ => none) .cat 0
      (rootFrame 7 badChildRoot) [] 0 (by simp [chainDepth]) (by decide)
      (by decide) (by decide)
    simpa [rootFrame] using h

/-- C6: flipping one byte of a block with a valid stored checksum (block of
at most 64 KiB, word-aligned size) at any offset outside the 8-byte header
checksum field falsifies `apfs_obj_verify_csum`, and a read path that
requests integrity checking (`apfs_read_object_block` under
`APFS_CHECK_NODES`) rejects the modified block with the checksum-mismatch
error `EFSBADCRC`. -/
theorem csum_flip_detected (blk : List Nat) (o y : Nat)
    (hlen : blk.length ≤ 65536) (hdvd : 4 ∣ blk.length)
    (ho8 : 8 ≤ o) (ho : o < blk.length)
    (hbytes : ∀ b ∈ blk, b < 256) (hy : y < 256) (hne : y ≠ blk.getD o 0)
    (hvalid : apfs_obj_verify_csum blk = true) :
    apfs_obj_verify_csum (blk.set o y) = false
    ∧ ∀ (fs : FS) (bno : Nat) (w : Bool), fs.checkNodes = true →
        fs.disk bno = some (blk.set o y) →
        apfs_read_object_block fs bno w = .error .EFSBADCRC := by
  have hflip := obj_verify_csum_flip blk o y hlen hdvd ho8 ho hbytes hy hne hvalid
  refine ⟨hflip, ?_⟩
  intro fs bno w hcn hdisk
  unfold apfs_read_object_block
  rw [hdisk]
  simp only [hcn, hflip]
  simp

/-- C6 witness: a concrete 16-byte block checksummed by `apfs_obj_set_csum`,
then corrupted at offset 8. -/
theorem csum_flip_detected_witness :
    apfs_obj_verify_csum
      ((apfs_obj_set_csum [0, 0, 0, 0, 0, 0, 0, 0, 1, 2, 3, 4, 5, 6, 7, 8]).set 8 9)
      = false :=
  (csum_flip_detected (apfs_obj_set_csum [0, 0, 0, 0, 0, 0, 0, 0, 1, 2, 3, 4, 5, 6, 7, 8])
    8 9 (by decide) (by decide) (by decide) (by decide)
    (by decide) (by decide) (by decide) (by decide)).1

/-- C4 counterexample: the claim says a missing object-map mapping is
reported by `apfs_omap_lookup_block` as a corruption error, but on a
concrete object map with no mapping for oid 3 the lookup returns plain
`ENODATA`, unconverted; only `apfs_delete_omap_rec` converts the missing
mapping to `EFSCORRUPTED`. -/
theorem omap_lookup_notfound_counterexample :
    apfs_omap_lookup_block omapMissSt 4096 3 false = .error .ENODATA
    ∧ apfs_omap_lookup_block omapMissSt 4096 3 false ≠ .error .EFSCORRUPTED := by
  have h : apfs_omap_lookup_block omapMissSt 4096 3 false = .error .ENODATA := by
    simp [apfs_omap_lookup_block, apfs_btree_query, apfs_query_set_before_first,
      apfs_node_query, findLe, keyMatch, keyOid, omapKey, valueAt, rootFrame,
      chainDepth, ANode.isLeaf, omapMissSt, omapMissRoot, omapValBytes]
  exact ⟨h, by rw [h]; simp⟩

/-- C4 (amended): when the exact-match object-map query for `(oid, xid)`
finds no mapping, `apfs_delete_omap_rec` reports the missing mandatory
mapping as corruption (`EFSCORRUPTED`), while `apfs_omap_lookup_block`
propagates the not-found (`ENODATA`) unchanged to its caller. -/
theorem omap_missing_mapping_reporting (st : AFS) (root : ANode) (oid : Nat)
    (hroot : st.ndisk st.omapRootBno = some root)
    (hq : (apfs_btree_query st.ndisk .omap (omapKey oid st.fs.xid)
        [rootFrame st.omapRootBno root]).2 = some .ENODATA) :
    (∀ (bs : Nat) (w : Bool),
      apfs_omap_lookup_block st bs oid w = .error .ENODATA)
    ∧ apfs_delete_omap_rec st oid = .error .EFSCORRUPTED := by
  rcases hqq : apfs_btree_query st.ndisk .omap (omapKey oid st.fs.xid)
      [rootFrame st.omapRootBno root] with ⟨q', e⟩
  rw [hqq] at hq
  simp only at hq
  subst hq
  constructor
  · intro bs w
    unfold apfs_omap_lookup_block
    simp only [hroot, hqq]
  · unfold apfs_delete_omap_rec
    simp only [hroot, hqq]

/-- C4 witness: the amended behavior on the concrete missing-mapping
state. -/
theorem omap_missing_mapping_reporting_witness :
    apfs_omap_lookup_block omapMissSt 4096 3 true = .error .ENODATA
    ∧ apfs_delete_omap_rec omapMissSt 3 = .error .EFSCORRUPTED := by
  have h := omap_missing_mapping_reporting omapMissSt omapMissRoot 3 (by
      simp [omapMissSt])
    (by
      simp [apfs_btree_query, apfs_query_set_before_first, apfs_node_query,
        findLe, keyMatch, keyOid, omapKey, valueAt, rootFrame, chainDepth,
        ANode.isLeaf, omapMissSt, omapMissRoot, omapValBytes])
  exact ⟨h.1 4096 true, h.2⟩

theorem writeLe64_length (blk : List Nat) (off v : Nat)
    (h : off + 8 ≤ blk.length) : (writeLe64 blk off v).length = blk.length := by
  unfold writeLe64
  simp [toLeBytes_length]
  omega

theorem readLe64_writeLe64_same (blk : List Nat) (off v : Nat)
    (hoff : off ≤ blk.length) (hv : v < 2 ^ 64) :
    readLe64 (writeLe64 blk off v) off = v := by
  unfold readLe64 writeLe64
  rw [List.append_assoc, List.drop_append_eq_append_drop]
  have hl : (blk.take off).length = off := by simp; omega
  rw [hl, List.drop_of_length_le (by rw [hl])]
  simp only [Nat.sub_self, List.drop_zero, List.nil_append]
  rw [List.take_append_of_le_length (by rw [toLeBytes_length])]
  rw [List.take_of_length_le (by rw [toLeBytes_length])]
  exact fromLeBytes_toLeBytes 8 v (by norm_num; omega)

theorem readLe64_writeLe64_before (blk : List Nat) (off off2 v : Nat)
    (hlt : off2 + 8 ≤ off) (hoff : off ≤ blk.length) :
    readLe64 (writeLe64 blk off v) off2 = readLe64 blk off2 := by
  unfold readLe64 writeLe64
  rw [List.append_assoc, List.drop_append_eq_append_drop]
  have hl : (blk.take off).length = off := by simp; omega
  rw [hl]
  have h0 : off2 - off = 0 := by omega
  rw [h0, List.drop_zero]
  rw [List.take_append_of_le_length (by
    rw [List.length_drop, hl]
    omega)]
  rw [List.drop_take off off2 blk]
  rw [List.take_take, min_eq_left (by omega)]

theorem take_writeLe64_of_le (blk : List Nat) (off v n : Nat)
    (hn : n ≤ off) (hoff : off ≤ blk.length) :
    (writeLe64 blk off v).take n = blk.take n := by
  unfold writeLe64
  rw [List.append_assoc, List.take_append_of_le_length (by simp; omega),
    List.take_take, min_eq_left hn]

theorem drop_writeLe64_of_le (blk : List Nat) (off v m : Nat)
    (hm : off + 8 ≤ m) (hoff : off ≤ blk.length) :
    (writeLe64 blk off v).drop m = blk.drop m := by
  unfold writeLe64
  rw [List.append_assoc, List.drop_append_eq_append_drop]
  have h1 : (blk.take off).drop m = [] :=
    List.drop_of_length_le (by simp; omega)
  rw [h1, List.nil_append, List.drop_append_eq_append_drop]
  have h2 : (toLeBytes 8 v).drop (m - (blk.take off).length) = [] :=
    List.drop_of_length_le (by
      rw [toLeBytes_length]
      simp
      omega)
  rw [h2, List.nil_append, List.drop_drop]
  congr 1
  rw [toLeBytes_length]
  simp
  omega

theorem cow_run (fs : FS) (bno : Nat) (blk : List Nat) (nb : Nat)
    (fb' : List Nat)
    (hdisk : fs.disk bno = some blk)
    (hver : fs.checkNodes = true → apfs_obj_verify_csum blk = true)
    (hxid : readLe64 blk 16 ≠ fs.xid)
    (halloc : apfs_spaceman_allocate_block fs.freeBlocks = some (nb, fb'))
    (hsome : (fs.disk nb).isSome = true) :
    apfs_read_object_block fs bno true = .ok (nb, cowResultFs fs bno nb fb' blk) := by
  obtain ⟨blk0, hblk0⟩ := Option.isSome_iff_exists.mp hsome
  have hc : (fs.checkNodes && !apfs_obj_verify_csum blk) = false := by
    cases hcn : fs.checkNodes
    · rfl
    · simp [hver hcn]
  have hne : (readLe64 blk 16 == fs.xid) = false :=
    beq_eq_false_iff_ne.mpr hxid
  unfold apfs_read_object_block
  rw [hdisk]
  simp [hc, hne, halloc, hblk0, cowResultFs]

/-- C2: copy-on-write of `apfs_read_object_block` with write access.
(1) A block whose header xid already equals the current transaction's xid
is returned as-is, with the container state (allocator included) unchanged.
(2) Otherwise a new block is allocated backwards, the old block is enqueued
on the free queue with its bytes left intact, and the new block carries the
old bytes with the xid stamped to the current xid and, exactly for
physical objects (storage-class bit 30 of the type), the oid stamped to the
new block number; the new block is joined to the transaction and flagged
for checksumming, and a second write read of the new block is a no-op.
(3) On a concrete virtual object under xid 2 whose header records xid 1,
the write lookup relocates the object from block 50 to the free block 91,
enqueues block 50, rewrites the object-map record to point oid 7 at block
91 under xid 2, and a second write lookup returns block 91 again without
touching the allocator or the free queue. -/
theorem read_object_block_cow_spec :
    (∀ (fs : FS) (bno : Nat) (blk : List Nat),
      fs.disk bno = some blk →
      (fs.checkNodes = true → apfs_obj_verify_csum blk = true) →
      readLe64 blk 16 = fs.xid →
      apfs_read_object_block fs bno true = .ok (bno, fs))
    ∧ (∀ (fs : FS) (bno : Nat) (blk : List Nat) (nb : Nat) (fb' : List Nat),
      fs.disk bno = some blk →
      (fs.checkNodes = true → apfs_obj_verify_csum blk = true) →
      readLe64 blk 16 ≠ fs.xid →
      apfs_spaceman_allocate_block fs.freeBlocks = some (nb, fb') →
      (fs.disk nb).isSome = true →
      32 ≤ blk.length → fs.xid < 2 ^ 64 → nb < 2 ^ 64 →
      ∃ fs' blk2,
        apfs_read_object_block fs bno true = .ok (nb, fs')
        ∧ fs'.freeBlocks = fb'
        ∧ fs'.fq = fs.fq ++ [(bno, 1)]
        ∧ fs'.trans = apfs_transaction_join fs.trans nb
        ∧ fs'.xid = fs.xid
        ∧ fs'.checkNodes = fs.checkNodes
        ∧ fs'.csumFlagged = nb :: fs.csumFlagged
        ∧ (nb ≠ bno → fs'.disk bno = some blk)
        ∧ fs'.disk nb = some blk2
        ∧ blk2.length = blk.length
        ∧ readLe64 blk2 16 = fs.xid
        ∧ ((readLe32 blk 24).testBit 30 = true → readLe64 blk2 8 = nb)
        ∧ ((readLe32 blk 24).testBit 30 = false →
            readLe64 blk2 8 = readLe64 blk 8)
        ∧ blk2.take 8 = blk.take 8
        ∧ blk2.drop 24 = blk.drop 24
        ∧ (fs.checkNodes = false →
            apfs_read_object_block fs' nb true = .ok (nb, fs')))
    ∧ (apfs_omap_lookup_block cowSt 4096 7 true = .ok (91, cowStA)
        ∧ cowStA.ndisk 10 = some cowRootAfter
        ∧ cowStA.fs.fq = [(50, 1)]
        ∧ cowStA.fs.freeBlocks = [90]
        ∧ cowStA.fs.disk 91 = some (writeLe64 cowBlk 16 2)
        ∧ apfs_omap_lookup_block cowStA 4096 7 true = .ok (91, cowStB)
        ∧ cowStB.fs = cowStA.fs) := by
  refine ⟨?_, ?_, ?_⟩
  · intro fs bno blk hdisk hver hxid
    have hc : (fs.checkNodes && !apfs_obj_verify_csum blk) = false := by
      cases hcn : fs.checkNodes
      · rfl
      · simp [hver hcn]
    unfold apfs_read_object_block
    rw [hdisk]
    simp [hc, hxid]
  · intro fs bno blk nb fb' hdisk hver hxid halloc hsome hblen hx hnb
    have hrun := cow_run fs bno blk nb fb' hdisk hver hxid halloc hsome
    set blk1 := (if (readLe32 blk 24).testBit 30 then writeLe64 blk 8 nb
      else blk) with hblk1
    have hlen1 : blk1.length = blk.length := by
      rw [hblk1]
      cases h30 : (readLe32 blk 24).testBit 30
      · simp
      · simp [writeLe64_length blk 8 nb (by omega)]
    have hd2 : (cowResultFs fs bno nb fb' blk).disk nb
        = some (writeLe64 blk1 16 fs.xid) := by
      simp [cowResultFs, diskWrite, hblk1]
    have hread16 : readLe64 (writeLe64 blk1 16 fs.xid) 16 = fs.xid :=
      readLe64_writeLe64_same blk1 16 fs.xid (by omega) hx
    refine ⟨cowResultFs fs bno nb fb' blk, writeLe64 blk1 16 fs.xid, hrun,
      rfl, rfl, rfl, rfl, rfl, rfl, ?_, hd2, ?_, hread16, ?_, ?_, ?_, ?_, ?_⟩
    · intro hne2
      simp only [cowResultFs, diskWrite]
      rw [if_neg (fun h => hne2 h.symm), hdisk]
    · rw [writeLe64_length blk1 16 fs.xid (by omega), hlen1]
    · intro h30
      rw [readLe64_writeLe64_before blk1 16 8 fs.xid (by omega) (by omega),
        hblk1]
      simp only [h30, if_true]
      exact readLe64_writeLe64_same blk 8 nb (by omega) hnb
    · intro h30
      rw [readLe64_writeLe64_before blk1 16 8 fs.xid (by omega) (by omega),
        hblk1]
      simp [h30]
    · rw [take_writeLe64_of_le blk1 16 fs.xid 8 (by omega) (by omega), hblk1]
      cases h30 : (readLe32 blk 24).testBit 30
      · simp
      · simp [take_writeLe64_of_le blk 8 nb 8 (by omega) (by omega)]
    · rw [drop_writeLe64_of_le blk1 16 fs.xid 24 (by omega) (by omega), hblk1]
      cases h30 : (readLe32 blk 24).testBit 30
      · simp
      · simp [drop_writeLe64_of_le blk 8 nb 24 (by omega) (by omega)]
    · intro hcn0
      unfold apfs_read_object_block
      rw [hd2]
      simp [cowResultFs, hcn0, hread16]
  · have e1 : readLe64 cowBlk 16 = 1 := by decide
    have e2 : (readLe32 cowBlk 24).testBit 30 = false := by decide
    have e3 : readLe64 (omapValBytes 0 4096 50) 8 = 50 := by decide
    have e3l : (omapValBytes 0 4096 50).length = 16 := by decide
    have e4 : readLe64 (omapValBytes 0 4096 91) 8 = 91 := by decide
    have e4l : (omapValBytes 0 4096 91).length = 16 := by decide
    have e5 : readLe64 (writeLe64 cowBlk 16 2) 16 = 2 := by decide
    refine ⟨?_, by simp [cowStA, ndiskWrite], rfl, rfl,
      by simp [cowStA, diskWrite], ?_, rfl⟩
    · simp [apfs_omap_lookup_block, apfs_btree_query, apfs_node_query, findLe,
        keyMatch, keyOid, omapKey, valueAt, rootFrame, chainDepth, ANode.isLeaf,
        apfs_bno_from_query, apfs_read_object_block, apfs_spaceman_allocate_block,
        apfs_free_queue_insert, apfs_transaction_join, diskWrite, ndiskWrite,
        apfs_btree_replace, apfs_query_join_transaction, apfs_query_is_orphan,
        apfs_btree_change_rec_count, apfs_node_replace, readNodeWrite,
        cowSt, cowRoot, cowStA, cowRootAfter, e1, e2, e3, e3l, e4, e4l]
    · simp [apfs_omap_lookup_block, apfs_btree_query, apfs_node_query, findLe,
        keyMatch, keyOid, omapKey, valueAt, rootFrame, chainDepth, ANode.isLeaf,
        apfs_bno_from_query, apfs_read_object_block, apfs_spaceman_allocate_block,
        apfs_free_queue_insert, apfs_transaction_join, diskWrite, ndiskWrite,
        apfs_btree_replace, apfs_query_join_transaction, apfs_query_is_orphan,
        apfs_btree_change_rec_count, apfs_node_replace, readNodeWrite,
        cowSt, cowRoot, cowStA, cowStB, cowRootAfter, e4, e4l, e5]

/-- C2 witness: the already-owned identity at a concrete container whose
single object block records the current xid 1. -/
theorem read_object_block_cow_spec_witness :
    apfs_read_object_block cowFs1 5 true = .ok (5, cowFs1) :=
  read_object_block_cow_spec.1 cowFs1 5 cowBlk (by simp [cowFs1])
    (by intro h; simp [cowFs1] at h) (by decide)

